import Mathlib

/-!
Verification of the relation-resolution and batched-loading subsystem of the
pg-query-composer library.

The TypeScript sources are embedded shallowly:
* JavaScript values that flow through rows and query parameters are modelled
  by the inductive type `Val`; rows (`Record<string, unknown>`) are ordered
  association lists of field name / value pairs.
* JavaScript `Map` objects are modelled as ordered association lists with
  SameValueZero key comparison (`Val.keyBeq`); for non-primitive keys
  SameValueZero is reference identity, which a pure embedding renders as
  "never equal" (two distinct occurrences are distinct references).
* Stateful classes (`QueryComposer`, `ModelQueryComposer`, the model
  registry, the per-relation loader) become structures with explicit
  state-passing operations; `throw` becomes `Except Err`.
-/

/-- A JavaScript runtime value, as far as the relations subsystem observes it:
strings, numbers, booleans, `null`, `undefined`, arrays and plain objects. -/
inductive Val where
  | str : String → Val
  | num : Int → Val
  | bool : Bool → Val
  | null : Val
  | undef : Val
  | arr : List Val → Val
  | obj : List (String × Val) → Val

/-- A row / record: `Record<string, unknown>` as an ordered association list
(JavaScript objects cannot repeat keys; lookups take the first binding). -/
abbrev Row := List (String × Val)

/-- Property access `item[key]`: the first binding for the key, or
`undefined` when the field is absent. -/
def rowGet (item : Row) (key : String) : Val :=
  match item.find? (fun p => p.1 == key) with
  | some p => p.2
  | none => Val.undef

/-- Object spread update `{...record, [name]: v}`: if the field exists its
value is replaced in place (keeping its position), otherwise the field is
appended at the end. -/
def setField (record : Row) (name : String) (v : Val) : Row :=
  match record with
  | [] => [(name, v)]
  | (k, w) :: rest =>
    if k == name then (k, v) :: rest else (k, w) :: setField rest name v

/-- SameValueZero comparison as used by JavaScript `Map` keys, restricted to
what a pure embedding can observe: primitives compare by value; arrays and
objects compare by reference, and two separately-denoted values are distinct
references, hence never equal. -/
def Val.keyBeq : Val → Val → Bool
  | .str a, .str b => a == b
  | .num a, .num b => a == b
  | .bool a, .bool b => a == b
  | .null, .null => true
  | .undef, .undef => true
  | _, _ => false

/-- JavaScript truthiness. -/
def Val.truthy : Val → Bool
  | .str s => !(s == "")
  | .num n => !(n == 0)
  | .bool b => b
  | .null => false
  | .undef => false
  | .arr _ => true
  | .obj _ => true

/-- The coercion `Array.isArray(val) ? val : [val]` used by several operator
handlers. -/
def valAsArr : Val → List Val
  | .arr xs => xs
  | v => [v]

mutual
/-- JavaScript `String(value)` for the values the subsystem stringifies
(template-literal interpolation and the loader's cache-key function). -/
def valToString : Val → String
  | .str s => s
  | .num n => toString n
  | .bool b => if b then "true" else "false"
  | .null => "null"
  | .undef => "undefined"
  | .arr xs => valListToString xs
  | .obj _ => "[object Object]"

/-- JavaScript `Array.prototype.toString`: elements joined by commas. -/
def valListToString : List Val → String
  | [] => ""
  | [x] => valToString x
  | x :: y :: xs => valToString x ++ "," ++ valListToString (y :: xs)
end

/-- A JavaScript `Map` from `Val` keys (SameValueZero) to values, as an
ordered association list in insertion order. -/
abbrev ValMap (α : Type) := List (Val × α)

/-- `map.get(k)`. -/
def mapGet {α : Type} (m : ValMap α) (k : Val) : Option α :=
  match m.find? (fun p => Val.keyBeq p.1 k) with
  | some p => some p.2
  | none => none

/-- `map.get(k) || d` for a list-valued map (`|| []` in the sources). -/
def mapGetD {α : Type} (m : ValMap (List α)) (k : Val) : List α :=
  match mapGet m k with
  | some l => l
  | none => []

/-- `map.set(k, v)`: replaces the value of an existing (SameValueZero-equal)
key in place, otherwise appends the new binding. -/
def mapSet {α : Type} (m : ValMap α) (k : Val) (v : α) : ValMap α :=
  match m with
  | [] => [(k, v)]
  | (k', v') :: rest =>
    if Val.keyBeq k' k then (k', v) :: rest else (k', v') :: mapSet rest k v

/-- Embeds `groupByKey` (src/relations/loader.ts): iterates the rows once,
appending each row to the bucket of its key-column value, creating the bucket
on first sight. -/
def groupByKey (items : List Row) (key : String) : ValMap (List Row) :=
  items.foldl
    (fun grouped item =>
      let keyValue := rowGet item key
      let existing := mapGetD grouped keyValue
      mapSet grouped keyValue (existing ++ [item]))
    []

/-- Embeds `[...new Set(keys)]` (src/relations/loader.ts): unique elements in
first-occurrence order. -/
def dedupList (keys : List String) : List String :=
  keys.foldl (fun acc k => if acc.contains k then acc else acc ++ [k]) []

/-- Lookup in a string-keyed association list (the loader's memoization cache,
which a JavaScript `Map` with string keys realizes). -/
def lookupStr {α : Type} (m : List (String × α)) (k : String) : Option α :=
  match m.find? (fun p => p.1 == k) with
  | some p => some p.2
  | none => none

/-- Errors thrown by the subsystem (src/core/errors.ts, plus the plain
`Error` throws of src/relations/loader.ts and the handler throws of
src/core/operators.ts). -/
inductive Err where
  | invalidColumn : String → Err
  | invalidOperator : String → Err
  | relationNotFound : String → String → Err
  | relationMissing : String → Err
  | operatorArity : String → Err
  | castMismatch : Err
deriving DecidableEq, Repr

/-- A parameterized query `{ text, values }`. -/
structure ParamQuery where
  text : String
  values : List Val

/-- Internal condition structure (src/core/types.ts `Condition`). -/
structure Condition where
  column : String
  operator : String
  value : Val
  raw : Bool
  rawCondition : Option String

/-- Join configuration (src/core/types.ts `JoinConfig`). -/
structure JoinConfig where
  jtype : String
  table : String
  tableAlias : Option String
  onCond : String

/-- Sort option (src/core/types.ts `SortOption`). -/
structure SortOption where
  column : String
  ascending : Bool

/-- Pagination options with the defaults already resolved by `paginate`. -/
structure PaginationOptions where
  page : Nat
  limit : Nat

/-- Having condition (src/core/types.ts `HavingCondition`). -/
structure HavingCondition where
  condition : String
  values : List Val

/-- Query builder options after the constructor resolved defaults
(src/core/query-composer.ts). A zod schema is represented by the list of
column names that `extractZodColumns` derives from it. -/
structure QCOptions where
  strict : Bool
  separator : String
  extraColumns : List String

/-- The `QueryComposer` state (src/core/query-composer.ts). -/
structure QueryComposer where
  schema : List String
  table : String
  options : QCOptions
  whitelist : List String
  conditions : List Condition
  orGroups : List (List Condition)
  notConditions : List Condition
  sortOptions : List SortOption
  paginationOptions : Option PaginationOptions
  selectedFields : List String
  excludedFields : List String
  joins : List JoinConfig
  groupByFields : List String
  havingConditions : List HavingCondition

/-- The default columns the constructor appends to every whitelist. -/
def defaultWhitelistCols : List String :=
  ["id", "created_at", "updated_at", "deleted_at"]

/-- The whitelist built by the `QueryComposer` constructor: schema columns,
then extra columns, then the default audit columns. -/
def buildWhitelist (schema : List String) (extraColumns : List String) : List String :=
  schema ++ extraColumns ++ defaultWhitelistCols

/-- The `QueryComposer` constructor. -/
def mkQueryComposer (schema : List String) (table : String) (options : QCOptions) : QueryComposer :=
  { schema := schema
    table := table
    options := options
    whitelist := buildWhitelist schema options.extraColumns
    conditions := []
    orGroups := []
    notConditions := []
    sortOptions := []
    paginationOptions := none
    selectedFields := []
    excludedFields := []
    joins := []
    groupByFields := []
    havingConditions := [] }

/-- List of all valid operator names (src/core/operators.ts
`VALID_OPERATORS`). -/
def VALID_OPERATORS : List String :=
  ["exact", "notexact", "gt", "gte", "lt", "lte",
   "contains", "icontains", "startswith", "istartswith",
   "endswith", "iendswith", "regex", "iregex",
   "in", "notin", "between", "notbetween",
   "isnull", "isnotnull",
   "date", "datebetween", "year", "month", "day", "week",
   "today", "thisweek", "thismonth", "thisyear",
   "arraycontains", "arrayoverlap", "arraycontained"]

/-- Placeholder list `?, ?, ...` for an n-element parameter array. -/
def qMarks : Nat → String
  | 0 => ""
  | 1 => "?"
  | n + 1 => "?, " ++ qMarks n

/-- Operator handlers (src/core/operators.ts `OPERATORS`): each maps a column
and a value to a SQL fragment with `?` placeholders and its parameter list;
`between`-style handlers throw on wrong arity. -/
def OPERATORS (op : String) (col : String) (val : Val) : Except Err (String × List Val) :=
  match op with
  | "exact" => .ok (col ++ " = ?", [val])
  | "notexact" => .ok (col ++ " != ?", [val])
  | "gt" => .ok (col ++ " > ?", [val])
  | "gte" => .ok (col ++ " >= ?", [val])
  | "lt" => .ok (col ++ " < ?", [val])
  | "lte" => .ok (col ++ " <= ?", [val])
  | "contains" => .ok (col ++ " ILIKE ?", [.str ("%" ++ valToString val ++ "%")])
  | "icontains" => .ok (col ++ " ILIKE ?", [.str ("%" ++ valToString val ++ "%")])
  | "startswith" => .ok (col ++ " ILIKE ?", [.str (valToString val ++ "%")])
  | "istartswith" => .ok (col ++ " ILIKE ?", [.str (valToString val ++ "%")])
  | "endswith" => .ok (col ++ " ILIKE ?", [.str ("%" ++ valToString val)])
  | "iendswith" => .ok (col ++ " ILIKE ?", [.str ("%" ++ valToString val)])
  | "regex" => .ok (col ++ " ~ ?", [val])
  | "iregex" => .ok (col ++ " ~* ?", [val])
  | "in" =>
    let a := valAsArr val
    if a.length == 0 then .ok ("FALSE", [])
    else .ok (col ++ " IN (" ++ qMarks a.length ++ ")", a)
  | "notin" =>
    let a := valAsArr val
    if a.length == 0 then .ok ("TRUE", [])
    else .ok (col ++ " NOT IN (" ++ qMarks a.length ++ ")", a)
  | "between" =>
    let a := match val with | .arr xs => xs | _ => []
    if a.length == 2 then .ok (col ++ " BETWEEN ? AND ?", a)
    else .error (.operatorArity "between")
  | "notbetween" =>
    let a := match val with | .arr xs => xs | _ => []
    if a.length == 2 then .ok (col ++ " NOT BETWEEN ? AND ?", a)
    else .error (.operatorArity "notbetween")
  | "isnull" =>
    .ok (if val.truthy then col ++ " IS NULL" else col ++ " IS NOT NULL", [])
  | "isnotnull" =>
    .ok (if val.truthy then col ++ " IS NOT NULL" else col ++ " IS NULL", [])
  | "date" => .ok ("DATE(" ++ col ++ ") = ?", [val])
  | "datebetween" =>
    let a := match val with | .arr xs => xs | _ => []
    if a.length == 2 then .ok ("DATE(" ++ col ++ ") BETWEEN ? AND ?", a)
    else .error (.operatorArity "datebetween")
  | "year" => .ok ("EXTRACT(YEAR FROM " ++ col ++ ") = ?", [val])
  | "month" => .ok ("EXTRACT(MONTH FROM " ++ col ++ ") = ?", [val])
  | "day" => .ok ("EXTRACT(DAY FROM " ++ col ++ ") = ?", [val])
  | "week" => .ok ("EXTRACT(WEEK FROM " ++ col ++ ") = ?", [val])
  | "today" => .ok ("DATE(" ++ col ++ ") = CURRENT_DATE", [])
  | "thisweek" =>
    .ok (col ++ " >= DATE_TRUNC('week', CURRENT_DATE) AND " ++ col ++
         " < DATE_TRUNC('week', CURRENT_DATE) + INTERVAL '1 week'", [])
  | "thismonth" =>
    .ok (col ++ " >= DATE_TRUNC('month', CURRENT_DATE) AND " ++ col ++
         " < DATE_TRUNC('month', CURRENT_DATE) + INTERVAL '1 month'", [])
  | "thisyear" =>
    .ok (col ++ " >= DATE_TRUNC('year', CURRENT_DATE) AND " ++ col ++
         " < DATE_TRUNC('year', CURRENT_DATE) + INTERVAL '1 year'", [])
  | "arraycontains" =>
    let a := valAsArr val
    .ok (col ++ " @> ARRAY[" ++ qMarks a.length ++ "]", a)
  | "arrayoverlap" =>
    let a := valAsArr val
    .ok (col ++ " && ARRAY[" ++ qMarks a.length ++ "]", a)
  | "arraycontained" =>
    let a := valAsArr val
    .ok (col ++ " <@ ARRAY[" ++ qMarks a.length ++ "]", a)
  | _ => .error (.invalidOperator op)

/-- JavaScript `String.prototype.split` on character lists: scan left to
right, emitting a piece at every non-overlapping occurrence of the separator.
Implemented with a character-count fuel so that the recursion is structural
(and therefore evaluates inside the kernel); the fuel is always sufficient
because every step consumes at least one character. -/
def jsSplitAux (sep : List Char) : Nat → List Char → List Char → List (List Char)
  | 0, cs, cur => [cur.reverse ++ cs]
  | _ + 1, [], cur => [cur.reverse]
  | fuel + 1, c :: cs, cur =>
    if sep.isPrefixOf (c :: cs) then
      cur.reverse :: jsSplitAux sep fuel ((c :: cs).drop sep.length) []
    else
      jsSplitAux sep fuel cs (c :: cur)

/-- JavaScript `s.split(sep)`: an empty separator splits into single
characters, otherwise split at every occurrence of the separator. -/
def jsSplit (s sep : String) : List String :=
  if sep == "" then s.toList.map (fun c => String.mk [c])
  else (jsSplitAux sep.toList (s.toList.length + 1) s.toList []).map (fun cs => String.mk cs)

/-- Embeds `validateColumn`: membership in the whitelist; throws when invalid
and strict. -/
def QueryComposer.validateColumn (qc : QueryComposer) (column : String) : Except Err Bool :=
  let isValid := qc.whitelist.contains column
  if !isValid && qc.options.strict then .error (.invalidColumn column) else .ok isValid

/-- Embeds `validateOperator`: membership in `VALID_OPERATORS`; throws when
invalid and strict. -/
def QueryComposer.validateOperator (qc : QueryComposer) (operator : String) : Except Err Bool :=
  let isValid := VALID_OPERATORS.contains operator
  if !isValid && qc.options.strict then .error (.invalidOperator operator) else .ok isValid

/-- Embeds `parseFieldOperator`: splits a `column__operator` key on the
separator; the operator defaults to `exact` when the second part is absent or
empty (JavaScript `parts[1] || 'exact'`); throws on an invalid column or
operator even when `validateColumn` merely returned false. -/
def QueryComposer.parseFieldOperator (qc : QueryComposer) (key : String) : Except Err (String × String) := do
  let parts := jsSplit key qc.options.separator
  let column := parts.headD ""
  let operator :=
    match parts.drop 1 with
    | [] => "exact"
    | s :: _ => if s == "" then "exact" else s
  let vc ← qc.validateColumn column
  if !vc then .error (.invalidColumn column)
  else
    let vo ← qc.validateOperator operator
    if !vo then .error (.invalidOperator operator)
    else .ok (column, operator)

/-- Embeds `whereRaw`: pushes a raw condition carrying its parameter list. -/
def QueryComposer.whereRaw (qc : QueryComposer) (condition : String) (values : List Val) : QueryComposer :=
  { qc with conditions := qc.conditions ++
      [{ column := "", operator := "exact", value := .arr values,
         raw := true, rawCondition := some condition }] }

/-- The guarded parse-and-push step of `where`: parse the key, push the
condition; a parse failure is rethrown in strict mode and swallowed
otherwise (the `try`/`catch` of the source). -/
def QueryComposer.whereParsePush (acc : QueryComposer) (key : String) (value : Val) :
    Except Err QueryComposer :=
  match acc.parseFieldOperator key with
  | .ok cv =>
    .ok { acc with conditions := acc.conditions ++
      [{ column := cv.1, operator := cv.2, value := value, raw := false, rawCondition := none }] }
  | .error e => if acc.options.strict then .error e else .ok acc

/-- The loop body of `where` over the filter entries: skip `undefined`
values, dispatch string-valued `__raw` keys to `whereRaw`, and parse-push
everything else. -/
def whereFilterGo (acc : QueryComposer) : List (String × Val) → Except Err QueryComposer
  | [] => .ok acc
  | (key, value) :: rest =>
    match value with
    | .undef => whereFilterGo acc rest
    | .str s =>
      if key == "__raw" then whereFilterGo (acc.whereRaw s []) rest
      else
        match acc.whereParsePush key (.str s) with
        | .ok acc2 => whereFilterGo acc2 rest
        | .error e => .error e
    | v =>
      match acc.whereParsePush key v with
      | .ok acc2 => whereFilterGo acc2 rest
      | .error e => .error e

/-- Embeds `where` (named `whereFilter` because `where` is a Lean keyword):
iterates the filter entries as in the source loop. -/
def QueryComposer.whereFilter (qc : QueryComposer) (filters : List (String × Val)) :
    Except Err QueryComposer :=
  whereFilterGo qc filters

/-- Embeds the value-array overload of `whereIn` (the subquery overload is
never reached by the relations subsystem): `where({ [column + '__in']:
values })`. -/
def QueryComposer.whereIn (qc : QueryComposer) (column : String) (values : List Val) : Except Err QueryComposer :=
  qc.whereFilter [(column ++ "__in", .arr values)]

/-- Embeds `join`: records an INNER JOIN. -/
def QueryComposer.join (qc : QueryComposer) (table : String) (onCond : String) : QueryComposer :=
  { qc with joins := qc.joins ++ [{ jtype := "inner", table := table, tableAlias := none, onCond := onCond }] }

/-- Builds the fragment of one condition, as `applyConditions` feeds it to the
query: a raw condition contributes its stored text and parameters (only when
the stored text is truthy), any other condition goes through its operator
handler. -/
def conditionFrag (cond : Condition) : Except Err (String × List Val) :=
  match cond.raw, cond.rawCondition with
  | true, some rc =>
    if rc == "" then OPERATORS cond.operator cond.column cond.value
    else .ok (rc, valAsArr cond.value)
  | _, _ => OPERATORS cond.operator cond.column cond.value

/-- Embeds the fragment-collection half of `applyConditions`: AND conditions,
then OR groups (each group joined by OR and parenthesized, skipped when
empty), then negated NOT conditions, in source order. -/
def QueryComposer.buildFragments (qc : QueryComposer) : Except Err (List (String × List Val)) := do
  let base ← qc.conditions.mapM conditionFrag
  let ors ← qc.orGroups.mapM (fun g => do
    let fs ← g.mapM (fun c => OPERATORS c.operator c.column c.value)
    pure fs)
  let orFrags := (ors.filter (fun fs => !fs.isEmpty)).map (fun fs =>
    ("(" ++ String.intercalate " OR " (fs.map Prod.fst) ++ ")",
     (fs.map Prod.snd).flatten))
  let nots ← qc.notConditions.mapM (fun c => do
    let f ← OPERATORS c.operator c.column c.value
    pure ("NOT (" ++ f.1 ++ ")", f.2))
  pure (base ++ orFrags ++ nots)

/-- Embeds `getSelectFields`: the explicitly selected fields, or else the
whitelist minus exclusions. -/
def QueryComposer.getSelectFields (qc : QueryComposer) : List String :=
  if !qc.selectedFields.isEmpty then qc.selectedFields
  else qc.whitelist.filter (fun f => !qc.excludedFields.contains f)

/-- Renumbers the `?` placeholders of a fragment into `$n, $n+1, ...`,
returning the renumbered text and the next free index. -/
def renumberFrag (s : String) (start : Nat) : String × Nat :=
  s.toList.foldl
    (fun acc c =>
      if c == '?' then (acc.1 ++ "$" ++ toString acc.2, acc.2 + 1)
      else (acc.1.push c, acc.2))
    ("", start)

/-- Modelled from the spec: the parameterized rendering that the external
squel library performs for `toSelect().toParam()` (spec section 6, condition
compiler contract — fragments are embedded into one SELECT statement and
their placeholders are renumbered consistently when concatenated). The
relations subsystem itself only ever populates fields, joins and WHERE
fragments. -/
def renderSelectParam (table : String) (fields : List String) (joins : List JoinConfig)
    (frags : List (String × List Val)) (groupByFields : List String)
    (havings : List HavingCondition) (sorts : List SortOption)
    (pagination : Option PaginationOptions) : ParamQuery :=
  let joinText := joins.foldl
    (fun acc j =>
      let tableRef := match j.tableAlias with
        | some a => j.table ++ " " ++ a
        | none => j.table
      match j.jtype with
      | "inner" => acc ++ " INNER JOIN " ++ tableRef ++ " ON (" ++ j.onCond ++ ")"
      | "left" => acc ++ " LEFT JOIN " ++ tableRef ++ " ON (" ++ j.onCond ++ ")"
      | "right" => acc ++ " RIGHT JOIN " ++ tableRef ++ " ON (" ++ j.onCond ++ ")"
      | _ => acc)
    ""
  let whereStep := frags.foldl
    (fun acc f =>
      let r := renumberFrag f.1 acc.2.2
      (acc.1 ++ (if acc.1 == "" then "" else " AND ") ++ "(" ++ r.1 ++ ")",
       acc.2.1 ++ f.2, r.2))
    ("", [], 1)
  let whereText := if whereStep.1 == "" then "" else " WHERE " ++ whereStep.1
  let groupText := groupByFields.foldl (fun acc g =>
    acc ++ (if acc == "" then " GROUP BY " else ", ") ++ g) ""
  let havingStep := havings.foldl
    (fun acc h =>
      let r := renumberFrag h.condition acc.2.2
      (acc.1 ++ (if acc.1 == "" then " HAVING " else " AND ") ++ "(" ++ r.1 ++ ")",
       acc.2.1 ++ h.values, r.2))
    ("", [], whereStep.2.2)
  let orderText := sorts.foldl (fun acc s =>
    acc ++ (if acc == "" then " ORDER BY " else ", ") ++ s.column ++
      (if s.ascending then " ASC" else " DESC")) ""
  let pageText := match pagination with
    | some p => " LIMIT " ++ toString p.limit ++ " OFFSET " ++ toString ((p.page - 1) * p.limit)
    | none => ""
  { text := "SELECT " ++ String.intercalate ", " fields ++ " FROM " ++ table ++
      joinText ++ whereText ++ groupText ++ havingStep.1 ++ orderText ++ pageText
    values := whereStep.2.1 ++ havingStep.2.1 }

/-- Embeds `toParam` = `toSelect().toParam()`: collects the condition
fragments and renders the parameterized SELECT. -/
def QueryComposer.toParam (qc : QueryComposer) : Except Err ParamQuery := do
  let frags ← qc.buildFragments
  pure (renderSelectParam qc.table qc.getSelectFields qc.joins frags
    qc.groupByFields qc.havingConditions qc.sortOptions qc.paginationOptions)

/-- Relation configurations (src/relations/types.ts): the closed set of four
variants discriminated by `type`. -/
inductive RelationConfig where
  | belongsTo (target : String) (foreignKey : String) (primaryKey : String)
  | hasOne (target : String) (foreignKey : String) (primaryKey : String)
  | hasMany (target : String) (foreignKey : String) (primaryKey : String)
  | hasManyThrough (target : String) (through : String) (foreignKey : String)
      (throughForeignKey : String) (primaryKey : String) (throughPrimaryKey : String)
deriving DecidableEq, Repr

/-- The `type` discriminator string of a relation config. -/
def RelationConfig.rtype : RelationConfig → String
  | .belongsTo .. => "belongsTo"
  | .hasOne .. => "hasOne"
  | .hasMany .. => "hasMany"
  | .hasManyThrough .. => "hasManyThrough"

/-- The `target` field of a relation config. -/
def RelationConfig.target : RelationConfig → String
  | .belongsTo t .. => t
  | .hasOne t .. => t
  | .hasMany t .. => t
  | .hasManyThrough t .. => t

/-- The `foreignKey` field of a relation config (present on every variant). -/
def RelationConfig.foreignKey : RelationConfig → String
  | .belongsTo _ fk _ => fk
  | .hasOne _ fk _ => fk
  | .hasMany _ fk _ => fk
  | .hasManyThrough _ _ fk _ _ _ => fk

/-- The `primaryKey` field of a relation config. -/
def RelationConfig.primaryKey : RelationConfig → String
  | .belongsTo _ _ pk => pk
  | .hasOne _ _ pk => pk
  | .hasMany _ _ pk => pk
  | .hasManyThrough _ _ _ _ pk _ => pk

/-- A registered model definition (src/relations/types.ts
`ModelDefinition`); the zod schema is represented by its column names. -/
structure ModelDefinition where
  name : String
  table : String
  schema : List String
  primaryKey : Option String
  relations : Option (List (String × RelationConfig))
deriving DecidableEq, Repr

/-- The configuration object accepted by `defineModel`. -/
structure ModelConfig where
  name : String
  table : String
  schema : List String
  primaryKey : Option String
  relations : Option (List (String × RelationConfig))
deriving DecidableEq, Repr

/-- The process-wide model registry (src/relations/define.ts), made explicit:
a JavaScript `Map` from model name to definition. -/
abbrev ModelRegistry := List (String × ModelDefinition)

/-- `Map.set` for a string-keyed map: overwrite in place, else append. -/
def jsMapSet {α : Type} (m : List (String × α)) (k : String) (v : α) : List (String × α) :=
  match m with
  | [] => [(k, v)]
  | (k', v') :: rest =>
    if k' == k then (k', v) :: rest else (k', v') :: jsMapSet rest k v

/-- Embeds `defineModel` (src/relations/define.ts): builds the definition
with default primary key `id` when omitted (`config.primaryKey ?? 'id'`),
registers it under `config.name`, and returns it. -/
def defineModel (registry : ModelRegistry) (config : ModelConfig) : ModelRegistry × ModelDefinition :=
  let model : ModelDefinition :=
    { name := config.name
      table := config.table
      schema := config.schema
      primaryKey := some (config.primaryKey.getD "id")
      relations := config.relations }
  (jsMapSet registry config.name model, model)

/-- Embeds `getModel`: pure registry lookup. -/
def getModel (registry : ModelRegistry) (name : String) : Option ModelDefinition :=
  lookupStr registry name

/-- Embeds `hasRelation`: the relation map exists and contains the name. -/
def hasRelation (model : ModelDefinition) (relationName : String) : Bool :=
  match model.relations with
  | none => false
  | some rs => rs.any (fun p => p.1 == relationName)

/-- Embeds `getRelation`: `model.relations?.[relationName]`. -/
def getRelation (model : ModelDefinition) (relationName : String) : Option RelationConfig :=
  match model.relations with
  | none => none
  | some rs => lookupStr rs relationName

/-- Batch load configuration (src/relations/loader.ts `BatchLoadConfig`). -/
structure BatchLoadConfig where
  query : ParamQuery
  batchKey : String
  isSingle : Bool

/-- Embeds `batchLoadBelongsTo`: a non-strict composer on the target table
with the relation's primary key as extra column, filtered by
`whereIn(primaryKey, keys)`; batch key is the primary key, single
cardinality. The `as BelongsToRelation` cast is the pattern match. -/
def batchLoadBelongsTo (model : ModelDefinition) (relationName : String) (keys : List String) :
    Except Err BatchLoadConfig :=
  match getRelation model relationName with
  | some (.belongsTo target foreignKey primaryKey) => do
    let _ := foreignKey
    let qc := mkQueryComposer model.schema target
      { strict := false, separator := "__", extraColumns := [primaryKey] }
    let qc ← qc.whereIn primaryKey (keys.map Val.str)
    let q ← qc.toParam
    pure { query := q, batchKey := primaryKey, isSingle := true }
  | _ => .error .castMismatch

/-- Embeds `batchLoadHasOne`: filter `whereIn(foreignKey, keys)`, batch key
the foreign key, single cardinality. -/
def batchLoadHasOne (model : ModelDefinition) (relationName : String) (keys : List String) :
    Except Err BatchLoadConfig :=
  match getRelation model relationName with
  | some (.hasOne target foreignKey _) => do
    let qc := mkQueryComposer model.schema target
      { strict := false, separator := "__", extraColumns := [foreignKey] }
    let qc ← qc.whereIn foreignKey (keys.map Val.str)
    let q ← qc.toParam
    pure { query := q, batchKey := foreignKey, isSingle := true }
  | _ => .error .castMismatch

/-- Embeds `batchLoadHasMany`: same shape as `hasOne` with multiple
cardinality. -/
def batchLoadHasMany (model : ModelDefinition) (relationName : String) (keys : List String) :
    Except Err BatchLoadConfig :=
  match getRelation model relationName with
  | some (.hasMany target foreignKey _) => do
    let qc := mkQueryComposer model.schema target
      { strict := false, separator := "__", extraColumns := [foreignKey] }
    let qc ← qc.whereIn foreignKey (keys.map Val.str)
    let q ← qc.toParam
    pure { query := q, batchKey := foreignKey, isSingle := false }
  | _ => .error .castMismatch

/-- Embeds `batchLoadHasManyThrough`: a composer on the target table with the
junction's two key columns as extra columns, an inner join of the junction
table on `target.throughPrimaryKey = through.throughForeignKey`, and a
`whereIn` on the table-qualified junction foreign-key column. -/
def batchLoadHasManyThrough (model : ModelDefinition) (relationName : String) (keys : List String) :
    Except Err BatchLoadConfig :=
  match getRelation model relationName with
  | some (.hasManyThrough target through foreignKey throughForeignKey _ throughPrimaryKey) => do
    let qc := mkQueryComposer model.schema target
      { strict := false, separator := "__", extraColumns := [foreignKey, throughForeignKey] }
    let qc := qc.join through
      (target ++ "." ++ throughPrimaryKey ++ " = " ++ through ++ "." ++ throughForeignKey)
    let qc ← qc.whereIn (through ++ "." ++ foreignKey) (keys.map Val.str)
    let q ← qc.toParam
    pure { query := q, batchKey := foreignKey, isSingle := false }
  | _ => .error .castMismatch

/-- Embeds `getBatchLoadConfig`: dispatch on the relation's `type` tag; the
non-null assertion on `getRelation` becomes an error case. -/
def getBatchLoadConfig (model : ModelDefinition) (relationName : String) (keys : List String) :
    Except Err BatchLoadConfig :=
  match getRelation model relationName with
  | none => .error (.relationMissing relationName)
  | some rel =>
    match rel with
    | .belongsTo .. => batchLoadBelongsTo model relationName keys
    | .hasOne .. => batchLoadHasOne model relationName keys
    | .hasMany .. => batchLoadHasMany model relationName keys
    | .hasManyThrough .. => batchLoadHasManyThrough model relationName keys

/-- The per-relation loader instance created by `createRelationLoader`: the
DataLoader state reduced to its per-instance memoization cache, plus the
closed-over model, relation name and executor. The executor is modelled as a
total function because the verified claims concern successful executions. -/
structure RelationLoader where
  model : ModelDefinition
  relationName : String
  executor : ParamQuery → List Row
  cache : List (String × List Row)

/-- The loader's cache-key function `(key) => String(key)` (keys are strings
throughout the relations subsystem, so this is the identity normalization to
the canonical string form). -/
def cacheKeyFn (key : String) : String :=
  valToString (Val.str key)

/-- Embeds `createRelationLoader` (src/relations/loader.ts): throws when the
relation is absent, otherwise returns a fresh loader whose per-instance cache
starts empty. -/
def createRelationLoader (model : ModelDefinition) (relationName : String)
    (executor : ParamQuery → List Row) : Except Err RelationLoader :=
  match getRelation model relationName with
  | none => .error (.relationMissing relationName)
  | some _ =>
    .ok { model := model, relationName := relationName, executor := executor, cache := [] }

/-- Embeds the batch callback passed to the DataLoader constructor
(src/relations/loader.ts lines 85-97): deduplicate the buffered keys, build
one batch-load config for the unique key set, execute it once, group the
rows by the batch key, and answer each buffered key with its group (or an
empty list). Also returns the single query given to the executor. -/
def relationBatchFn (model : ModelDefinition) (relationName : String)
    (executor : ParamQuery → List Row) (keys : List String) :
    Except Err (List (List Row) × ParamQuery) := do
  let uniqueKeys := dedupList keys
  let config ← getBatchLoadConfig model relationName uniqueKeys
  let results := executor config.query
  let grouped := groupByKey results config.batchKey
  pure (keys.map (fun key => mapGetD grouped (Val.str key)), config.query)

/-- Modelled from the spec: the scheduling of the external dataloader
package (spec sections 4.3 and 9), which is not part of this repository. One
execution turn processes the `load` calls issued within the turn: a key whose
cache key is already memoized resolves to its cached value without entering
the batch; the remaining keys are buffered (the promise cache collapses
duplicates), flushed once through the batch callback, and their resolved
values are memoized. Returns the new loader state, the per-call resolved
values in request order, and the queries handed to the executor during the
turn. -/
def loadTurn (ld : RelationLoader) (keys : List String) :
    Except Err (RelationLoader × List (List Row) × List ParamQuery) :=
  let enqueued := dedupList (keys.filter (fun k => (lookupStr ld.cache (cacheKeyFn k)).isNone))
  if enqueued.isEmpty then
    .ok (ld,
      keys.map (fun k =>
        match lookupStr ld.cache (cacheKeyFn k) with
        | some v => v
        | none => []),
      [])
  else do
    let r ← relationBatchFn ld.model ld.relationName ld.executor enqueued
    let newCache := ld.cache ++ (enqueued.map cacheKeyFn).zip r.1
    pure ({ ld with cache := newCache },
      keys.map (fun k =>
        match lookupStr newCache (cacheKeyFn k) with
        | some v => v
        | none => []),
      [r.2])

/-- JavaScript `model.primaryKey || 'id'` (falsy coercion: a missing or empty
primary key falls back to the default). -/
def primaryKeyOrId (model : ModelDefinition) : String :=
  match model.primaryKey with
  | some pk => if pk == "" then "id" else pk
  | none => "id"

/-- The key field `loadRelation` reads from each parent record: the foreign
key for `belongsTo`, the model's primary key otherwise. -/
def keyFieldOf (model : ModelDefinition) (relation : RelationConfig) : String :=
  match relation with
  | .belongsTo _ fk _ => fk
  | _ => primaryKeyOrId model

/-- The value `loadRelation` assigns under the relation name:
`related[0] || null` for single-cardinality relations (rows are objects,
hence truthy) and the whole group otherwise. -/
def assembleRelated (relation : RelationConfig) (related : List Row) : Val :=
  match relation with
  | .belongsTo .. | .hasOne .. =>
    match related.head? with
    | some row => Val.obj row
    | none => Val.null
  | _ => Val.arr (related.map Val.obj)

/-- Embeds `loadRelation` (src/relations/loader.ts lines 265-299): checks the
relation, creates a fresh loader, pulls each record's key, loads all keys via
the loader — `Promise.all` issues every `load` synchronously, so they share
one execution turn — and returns the records extended with the loaded value
under the relation name. -/
def loadRelation (records : List Row) (model : ModelDefinition) (relationName : String)
    (executor : ParamQuery → List Row) : Except Err (List Row) := do
  match getRelation model relationName with
  | none => .error (.relationMissing relationName)
  | some relation => do
    let loader ← createRelationLoader model relationName executor
    let keyField := keyFieldOf model relation
    let keys := records.map (fun r => valToString (rowGet r keyField))
    let r ← loadTurn loader keys
    pure ((records.zip r.2.1).map (fun rv =>
      setField rv.1 relationName (assembleRelated relation rv.2)))

/-- Include configuration tracked by `ModelQueryComposer`
(src/relations/include.ts `TrackedInclude`); an inductive because the
`nested` field refers back to the type. -/
inductive TrackedInclude where
  | mk (relation : String) (config : RelationConfig)
      (query : Option (QueryComposer → QueryComposer))
      (nested : Option (List TrackedInclude))

/-- The `relation` field of a tracked include. -/
def TrackedInclude.relation : TrackedInclude → String
  | .mk r _ _ _ => r

/-- The `config` field of a tracked include. -/
def TrackedInclude.config : TrackedInclude → RelationConfig
  | .mk _ c _ _ => c

/-- The `query` field of a tracked include (the stored filter callback). -/
def TrackedInclude.query : TrackedInclude → Option (QueryComposer → QueryComposer)
  | .mk _ _ q _ => q

/-- The `nested` field of a tracked include. -/
def TrackedInclude.nested : TrackedInclude → Option (List TrackedInclude)
  | .mk _ _ _ n => n

/-- The `ModelQueryComposer` state (src/relations/include.ts): the base
`QueryComposer` built by the superclass constructor, the model, and the
tracked includes. -/
structure ModelQueryComposer where
  base : QueryComposer
  model : ModelDefinition
  includes : List TrackedInclude

/-- Embeds the `ModelQueryComposer` constructor / `createModelQuery`: a
non-strict composer over the model's table with no includes. -/
def createModelQuery (model : ModelDefinition) : ModelQueryComposer :=
  { base := mkQueryComposer model.schema model.table
      { strict := false, separator := "__", extraColumns := [] }
    model := model
    includes := [] }

/-- Embeds `ModelQueryComposer.include` (named `includeRel` because `include`
is a Lean keyword): throws `RelationNotFoundError` when the relation is
absent from the model's relation map, otherwise appends a tracked include
storing the (unevaluated) filter callback and returns the composer. The
`nested` field is not assigned anywhere in the sources. -/
def includeRel (mqc : ModelQueryComposer) (relation : String)
    (queryCallback : Option (QueryComposer → QueryComposer)) : Except Err ModelQueryComposer :=
  if !hasRelation mqc.model relation then
    .error (.relationNotFound relation mqc.model.name)
  else
    match getRelation mqc.model relation with
    | some relationConfig =>
      .ok { mqc with includes := mqc.includes ++ [.mk relation relationConfig queryCallback none] }
    | none => .error .castMismatch

/-- Embeds `getIncludes`: the tracked list (the defensive array copy is the
identity on a pure list value). -/
def getIncludes (mqc : ModelQueryComposer) : List TrackedInclude :=
  mqc.includes

/-- One entry of `getIncludeQueries`. -/
structure IncludeQuery where
  relation : String
  rtype : String
  query : ParamQuery
  foreignKey : String
  primaryKey : String

/-- Embeds `getIncludeQueries`: for each tracked include, builds a fresh
non-strict sub-composer over the relation's target table with an empty
placeholder schema, applies the stored filter callback to it if present, and
renders its parameterized query. The sub-composer handed to the callback is a
plain `QueryComposer`. -/
def getIncludeQueries (mqc : ModelQueryComposer) : Except Err (List IncludeQuery) :=
  mqc.includes.mapM (fun inc => do
    let baseQuery := mkQueryComposer [] inc.config.target
      { strict := false, separator := "__", extraColumns := [] }
    let finalQuery := match inc.query with
      | some f => f baseQuery
      | none => baseQuery
    let q ← finalQuery.toParam
    pure { relation := inc.relation
           rtype := inc.config.rtype
           query := q
           foreignKey := inc.config.foreignKey
           primaryKey := inc.config.primaryKey : IncludeQuery })

/-- Specification helper for the bucket-creation order: folds the key values,
keeping the first occurrence of each `Val.keyBeq`-class. -/
def firstSightKeys (vs : List Val) : List Val :=
  vs.foldl (fun acc v => if acc.any (fun w => Val.keyBeq w v) then acc else acc ++ [v]) []

/-- Whether a relation resolves to at most one row per parent (`belongsTo`
and `hasOne`). -/
def relIsSingle : RelationConfig → Bool
  | .belongsTo .. => true
  | .hasOne .. => true
  | _ => false

/-- The batch key each generator announces: the target primary key for
`belongsTo`, the foreign key otherwise. -/
def relBatchKey : RelationConfig → String
  | .belongsTo _ _ pk => pk
  | .hasOne _ fk _ => fk
  | .hasMany _ fk _ => fk
  | .hasManyThrough _ _ fk _ _ _ => fk

/-- Side conditions on a relation's configured column names under which the
generator's `whereIn` call behaves deterministically: the filter key must
split cleanly on the `__` separator (the column name contains no `__`), and
for `hasManyThrough` the table-qualified junction column must not collide
with a whitelisted column name. Ordinary snake_case column names satisfy
both. -/
def relWhereOk (model : ModelDefinition) : RelationConfig → Prop
  | .belongsTo _ _ pk => jsSplit (pk ++ "__in") "__" = [pk, "in"]
  | .hasOne _ fk _ => jsSplit (fk ++ "__in") "__" = [fk, "in"]
  | .hasMany _ fk _ => jsSplit (fk ++ "__in") "__" = [fk, "in"]
  | .hasManyThrough _ through fk tfk _ _ =>
    (jsSplit (through ++ "." ++ fk ++ "__in") "__" = [through ++ "." ++ fk, "in"]) ∧
    (buildWhitelist model.schema [fk, tfk]).contains (through ++ "." ++ fk) = false

/-- Concrete model used by witnesses: the spec's `League` scenario, with a
`hasMany`, a `hasManyThrough` and a `belongsTo` relation. -/
def LeagueModel : ModelDefinition :=
  { name := "League", table := "leagues", schema := ["id", "name"],
    primaryKey := some "id",
    relations := some [
      ("posts", RelationConfig.hasMany "posts" "league_id" "id"),
      ("teams", RelationConfig.hasManyThrough "teams" "league_teams" "league_id" "team_id" "id" "id"),
      ("country", RelationConfig.belongsTo "countries" "country_id" "id")] }

/-- Concrete executor used by witnesses: the spec's three-post result set. -/
def postsExecutor : ParamQuery → List Row := fun _ =>
  [[("id", Val.str "p1"), ("league_id", Val.str "L1")],
   [("id", Val.str "p2"), ("league_id", Val.str "L1")],
   [("id", Val.str "p3"), ("league_id", Val.str "L2")]]

/-- Concrete model used by witnesses: the spec's `Post`/`author` scenario. -/
def PostModel : ModelDefinition :=
  { name := "Post", table := "posts", schema := ["id", "title"],
    primaryKey := some "id",
    relations := some [("author", RelationConfig.belongsTo "users" "author_id" "id")] }

/-- Concrete executor used by witnesses: rows for `u9` and `u10`, returned in
the opposite of request order. -/
def usersExecutor : ParamQuery → List Row := fun _ =>
  [[("id", Val.str "u10"), ("name", Val.str "ten")],
   [("id", Val.str "u9"), ("name", Val.str "nine")]]

/-- Concrete model used by witnesses: a `hasOne` relation whose result set
contains two rows for the same key (the cardinality-anomaly scenario). -/
def UserModel : ModelDefinition :=
  { name := "User", table := "users", schema := ["id", "name"],
    primaryKey := some "id",
    relations := some [("profile", RelationConfig.hasOne "profiles" "user_id" "id")] }

/-- Concrete executor used by witnesses: two profile rows satisfying the same
`hasOne` key, a data-integrity anomaly. -/
def profilesExecutor : ParamQuery → List Row := fun _ =>
  [[("id", Val.str "pr1"), ("user_id", Val.str "u1")],
   [("id", Val.str "pr2"), ("user_id", Val.str "u1")]]

/-- Concrete registry config used by witnesses (no primary key given). -/
def cfgM1 : ModelConfig :=
  { name := "M", table := "t1", schema := ["id"], primaryKey := none, relations := none }

/-- Concrete registry config used by witnesses (same name, later entry). -/
def cfgM2 : ModelConfig :=
  { name := "M", table := "t2", schema := ["id"], primaryKey := some "pk", relations := none }

/-! ## Basic lemmas about the JavaScript data-structure model -/

theorem keyBeq_symm (a b : Val) : Val.keyBeq a b = Val.keyBeq b a := by
  cases a <;> cases b <;> simp [Val.keyBeq] <;> exact eq_comm

theorem keyBeq_trans {a b c : Val} (h1 : Val.keyBeq a b = true)
    (h2 : Val.keyBeq b c = true) : Val.keyBeq a c = true := by
  cases a <;> cases b <;> cases c <;>
    simp_all [Val.keyBeq]

theorem keyBeq_congr {kv v : Val} (h : Val.keyBeq kv v = true) (w : Val) :
    Val.keyBeq w kv = Val.keyBeq w v := by
  by_cases h1 : Val.keyBeq w kv = true
  · rw [h1, Eq.symm (keyBeq_trans h1 h)]
  · by_cases h2 : Val.keyBeq w v = true
    · have hvk : Val.keyBeq v kv = true := by rw [keyBeq_symm]; exact h
      exact absurd (keyBeq_trans h2 hvk) h1
    · simp only [Bool.not_eq_true] at h1 h2
      rw [h1, h2]

theorem mapGet_cons {α : Type} (p : Val × α) (rest : ValMap α) (v : Val) :
    mapGet (p :: rest) v = if Val.keyBeq p.1 v = true then some p.2 else mapGet rest v := by
  by_cases h : Val.keyBeq p.1 v = true
  · simp [mapGet, List.find?, h]
  · simp only [Bool.not_eq_true] at h
    simp [mapGet, List.find?, h]

theorem mapGet_congr {α : Type} (m : ValMap α) {kv v : Val}
    (h : Val.keyBeq kv v = true) : mapGet m kv = mapGet m v := by
  unfold mapGet
  have hfun : (fun p : Val × α => Val.keyBeq p.1 kv) = (fun p : Val × α => Val.keyBeq p.1 v) := by
    funext p
    exact keyBeq_congr h p.1
  rw [hfun]

theorem mapGet_mapSet_of_beq {α : Type} (m : ValMap α) {k v : Val} (l : α)
    (h : Val.keyBeq k v = true) : mapGet (mapSet m k l) v = some l := by
  induction m with
  | nil => simp [mapSet, mapGet, List.find?, h]
  | cons p rest ih =>
    cases hpk : Val.keyBeq p.1 k with
    | false =>
      have hpv : Val.keyBeq p.1 v = false := by rw [← keyBeq_congr h p.1]; exact hpk
      simp [mapSet, hpk, mapGet_cons, hpv, ih]
    | true =>
      have hpv : Val.keyBeq p.1 v = true := keyBeq_trans hpk h
      simp [mapSet, hpk, mapGet_cons, hpv]

theorem mapGet_mapSet_of_not_beq {α : Type} (m : ValMap α) {k v : Val} (l : α)
    (h : Val.keyBeq k v = false) : mapGet (mapSet m k l) v = mapGet m v := by
  induction m with
  | nil => simp [mapSet, mapGet, List.find?, h]
  | cons p rest ih =>
    cases hpk : Val.keyBeq p.1 k with
    | false => simp [mapSet, hpk, mapGet_cons, ih]
    | true =>
      have hpv : Val.keyBeq p.1 v = false := by
        cases hpv : Val.keyBeq p.1 v with
        | false => rfl
        | true =>
          have hkp : Val.keyBeq k p.1 = true := by rw [keyBeq_symm]; exact hpk
          have hkv : Val.keyBeq k v = true := keyBeq_trans hkp hpv
          rw [h] at hkv; cases hkv
      simp [mapSet, hpk, mapGet_cons, hpv]

theorem mapGetD_congr {kv v : Val} (m : ValMap (List Row))
    (h : Val.keyBeq kv v = true) : mapGetD m kv = mapGetD m v := by
  unfold mapGetD
  rw [mapGet_congr m h]

/-- The bucket a fold step leaves for `v` when the inserted row's key value is
`Val.keyBeq`-equal to `v`. -/
theorem groupStep_getD_of_beq (m : ValMap (List Row)) (item : Row) (key : String) {v : Val}
    (h : Val.keyBeq (rowGet item key) v = true) :
    mapGetD (mapSet m (rowGet item key) (mapGetD m (rowGet item key) ++ [item])) v =
      mapGetD m v ++ [item] := by
  unfold mapGetD
  rw [mapGet_mapSet_of_beq _ _ h, ← mapGet_congr m h]

/-- The bucket a fold step leaves for `v` when the inserted row's key value is
not `Val.keyBeq`-equal to `v`. -/
theorem groupStep_getD_of_not_beq (m : ValMap (List Row)) (item : Row) (key : String) {v : Val}
    (h : Val.keyBeq (rowGet item key) v = false) :
    mapGetD (mapSet m (rowGet item key) (mapGetD m (rowGet item key) ++ [item])) v =
      mapGetD m v := by
  unfold mapGetD
  rw [mapGet_mapSet_of_not_beq _ _ h]

/-- Generalized characterization of the `groupByKey` fold: the bucket at `v`
is whatever the accumulator already held, followed by the processed rows whose
key value compares equal to `v`, in input order. -/
theorem groupFold_getD (key : String) (items : List Row) (m : ValMap (List Row)) (v : Val) :
    mapGetD
      (items.foldl
        (fun grouped item =>
          mapSet grouped (rowGet item key) (mapGetD grouped (rowGet item key) ++ [item])) m)
      v =
    mapGetD m v ++ items.filter (fun item => Val.keyBeq (rowGet item key) v) := by
  induction items generalizing m with
  | nil => simp
  | cons item rest ih =>
    rw [List.foldl_cons, ih]
    cases hkv : Val.keyBeq (rowGet item key) v with
    | false =>
      rw [groupStep_getD_of_not_beq m item key hkv, List.filter_cons_of_neg (by simp [hkv])]
    | true =>
      rw [groupStep_getD_of_beq m item key hkv, List.filter_cons_of_pos (by simp [hkv])]
      simp

/-- The bucket of `groupByKey` at any key value equals the filter of the rows
whose key column compares equal to it (in particular: every row lands in the
bucket of its own key value, buckets preserve input order, and `||`-defaulted
lookups of unmatched values give the empty list). -/
theorem groupByKey_getD (rows : List Row) (key : String) (v : Val) :
    mapGetD (groupByKey rows key) v =
      rows.filter (fun item => Val.keyBeq (rowGet item key) v) := by
  have h := groupFold_getD key rows [] v
  simpa [groupByKey, mapGetD, mapGet] using h

theorem mapSet_keys {α : Type} (m : ValMap α) (k : Val) (l : α) :
    (mapSet m k l).map Prod.fst =
      if m.any (fun p => Val.keyBeq p.1 k) then m.map Prod.fst
      else m.map Prod.fst ++ [k] := by
  induction m with
  | nil => simp [mapSet]
  | cons p rest ih =>
    cases hpk : Val.keyBeq p.1 k with
    | false =>
      cases hrest : rest.any (fun p => Val.keyBeq p.1 k) with
      | false => simp [mapSet, hpk, List.any_cons, ih, hrest]
      | true => simp [mapSet, hpk, List.any_cons, ih, hrest]
    | true => simp [mapSet, hpk, List.any_cons]

/-- Generalized bucket-creation order for the `groupByKey` fold. -/
theorem groupFold_keys (key : String) (items : List Row) (m : ValMap (List Row)) :
    (items.foldl
      (fun grouped item =>
        mapSet grouped (rowGet item key) (mapGetD grouped (rowGet item key) ++ [item])) m).map
      Prod.fst =
    (items.map (fun item => rowGet item key)).foldl
      (fun acc v => if acc.any (fun w => Val.keyBeq w v) then acc else acc ++ [v])
      (m.map Prod.fst) := by
  induction items generalizing m with
  | nil => simp
  | cons item rest ih =>
    rw [List.foldl_cons, ih, List.map_cons, List.foldl_cons, mapSet_keys]
    have hany : ∀ mm : ValMap (List Row), (mm.any (fun p => Val.keyBeq p.1 (rowGet item key))) =
        ((mm.map Prod.fst).any (fun w => Val.keyBeq w (rowGet item key))) := by
      intro mm
      induction mm with
      | nil => rfl
      | cons q qs ihq => simp [List.any_cons, ihq]
    rw [hany]

/-- The buckets of `groupByKey` are created on first sight: the map's key
sequence is the sequence of key-column values with later repetitions removed. -/
theorem groupByKey_keys (rows : List Row) (key : String) :
    (groupByKey rows key).map Prod.fst =
      firstSightKeys (rows.map (fun item => rowGet item key)) := by
  have h := groupFold_keys key rows []
  simpa [groupByKey, firstSightKeys] using h

/-! ## Lemmas about deduplication and lookups -/

theorem strContains_iff_mem {l : List String} {a : String} : l.contains a = true ↔ a ∈ l := by
  induction l with
  | nil => simp
  | cons b t ih =>
    simp only [List.contains_cons, Bool.or_eq_true, beq_iff_eq, ih, List.mem_cons]

theorem mem_dedupFold {keys : List String} {acc : List String} {x : String} :
    x ∈ keys.foldl (fun acc k => if acc.contains k then acc else acc ++ [k]) acc ↔
      x ∈ acc ∨ x ∈ keys := by
  induction keys generalizing acc with
  | nil => simp
  | cons k rest ih =>
    rw [List.foldl_cons]
    by_cases hk : acc.contains k = true
    · rw [if_pos hk, ih]
      have hmem : k ∈ acc := strContains_iff_mem.mp hk
      constructor
      · rintro (h | h)
        · exact Or.inl h
        · exact Or.inr (List.mem_cons_of_mem _ h)
      · rintro (h | h)
        · exact Or.inl h
        · rcases List.mem_cons.mp h with h | h
          · exact Or.inl (h ▸ hmem)
          · exact Or.inr h
    · rw [if_neg hk, ih]
      simp [List.mem_append, List.mem_cons, or_assoc, or_comm, or_left_comm]
  
theorem mem_dedupList {keys : List String} {x : String} :
    x ∈ dedupList keys ↔ x ∈ keys := by
  unfold dedupList
  rw [mem_dedupFold]
  simp

theorem dedupFold_nodup {keys : List String} {acc : List String} (h : acc.Nodup) :
    (keys.foldl (fun acc k => if acc.contains k then acc else acc ++ [k]) acc).Nodup := by
  induction keys generalizing acc with
  | nil => exact h
  | cons k rest ih =>
    rw [List.foldl_cons]
    by_cases hk : acc.contains k = true
    · rw [if_pos hk]; exact ih h
    · rw [if_neg hk]
      refine ih ?_
      have hnot : k ∉ acc := fun hmem => hk (strContains_iff_mem.mpr hmem)
      simp [List.nodup_append, h, hnot]

theorem dedupList_nodup (keys : List String) : (dedupList keys).Nodup :=
  dedupFold_nodup List.nodup_nil

theorem dedupList_ne_nil {keys : List String} (h : keys ≠ []) : dedupList keys ≠ [] := by
  rcases keys with _ | ⟨k, rest⟩
  · exact absurd rfl h
  · intro hnil
    have : k ∈ dedupList (k :: rest) := mem_dedupList.mpr (List.mem_cons_self _ _)
    rw [hnil] at this
    exact List.not_mem_nil _ this

theorem dedupFold_of_nodup {l : List String} :
    ∀ acc : List String, (acc ++ l).Nodup →
      l.foldl (fun acc k => if acc.contains k then acc else acc ++ [k]) acc = acc ++ l := by
  induction l with
  | nil => intro acc _; simp
  | cons k rest ih =>
    intro acc h
    have hk : acc.contains k = false := by
      have : k ∉ acc := by
        intro hmem
        rw [List.nodup_append] at h
        exact h.2.2 hmem (List.mem_cons_self _ _)
      cases hc : acc.contains k with
      | false => rfl
      | true => exact absurd (strContains_iff_mem.mp hc) this
    rw [List.foldl_cons, hk]
    simp only [Bool.false_eq_true, if_false]
    have h2 : (acc ++ [k] ++ rest).Nodup := by
      have : acc ++ [k] ++ rest = acc ++ k :: rest := by simp
      rw [this]; exact h
    rw [ih (acc ++ [k]) h2]
    simp

theorem dedupList_eq_self_of_nodup {l : List String} (h : l.Nodup) : dedupList l = l := by
  unfold dedupList
  have := dedupFold_of_nodup (l := l) [] (by simpa using h)
  simpa using this

theorem dedupList_idem (keys : List String) : dedupList (dedupList keys) = dedupList keys :=
  dedupList_eq_self_of_nodup (dedupList_nodup keys)

theorem lookupStr_cons {α : Type} (p : String × α) (rest : List (String × α)) (k : String) :
    lookupStr (p :: rest) k = if p.1 == k then some p.2 else lookupStr rest k := by
  by_cases h : p.1 == k
  · simp [lookupStr, List.find?, h]
  · simp only [Bool.not_eq_true] at h
    simp [lookupStr, List.find?, h]

theorem lookupStr_zip_map {α : Type} (l : List String) (g : String → α) {k : String}
    (h : k ∈ l) : lookupStr (l.zip (l.map g)) k = some (g k) := by
  induction l with
  | nil => cases h
  | cons a rest ih =>
    rw [List.map_cons, List.zip_cons_cons, lookupStr_cons]
    by_cases ha : a == k
    · have : a = k := by simpa using ha
      subst this
      simp
    · simp only [ha, if_false]
      rcases List.mem_cons.mp h with h1 | h1
      · exact absurd (by simp [h1]) ha
      · exact ih h1

/-! ## Lemmas about records and field updates -/

theorem rowGet_cons (k : String) (w : Val) (rest : Row) (f : String) :
    rowGet ((k, w) :: rest) f = if k == f then w else rowGet rest f := by
  by_cases h : (k == f) = true
  · simp [rowGet, List.find?, h]
  · simp only [Bool.not_eq_true] at h
    simp [rowGet, List.find?, h]

theorem rowGet_setField_self (record : Row) (name : String) (v : Val) :
    rowGet (setField record name v) name = v := by
  induction record with
  | nil => simp [setField, rowGet_cons]
  | cons p rest ih =>
    rcases p with ⟨k, w⟩
    by_cases hk : (k == name) = true
    · simp [setField, hk, rowGet_cons]
    · simp only [Bool.not_eq_true] at hk
      simp [setField, hk, rowGet_cons, ih]

theorem rowGet_setField_ne (record : Row) {name f : String} (v : Val) (h : f ≠ name) :
    rowGet (setField record name v) f = rowGet record f := by
  have hnf : (name == f) = false := by
    simp only [beq_eq_false_iff_ne, ne_eq]
    exact fun hc => h hc.symm
  induction record with
  | nil => simp [setField, rowGet_cons, hnf, rowGet]
  | cons p rest ih =>
    rcases p with ⟨k, w⟩
    by_cases hk : (k == name) = true
    · have hk2 : k = name := by simpa using hk
      subst hk2
      simp [setField, rowGet_cons, hnf]
    · simp only [Bool.not_eq_true] at hk
      by_cases hkf : (k == f) = true
      · simp [setField, hk, rowGet_cons, hkf]
      · simp only [Bool.not_eq_true] at hkf
        simp [setField, hk, rowGet_cons, hkf, ih]

theorem getD_map_lt {α β : Type} (l : List α) (f : α → β) {i : Nat} (h : i < l.length)
    (d : β) (d' : α) : (l.map f).getD i d = f (l.getD i d') := by
  induction l generalizing i with
  | nil => cases h
  | cons a rest ih =>
    cases i with
    | zero => simp
    | succ n =>
      simp only [List.map_cons, List.getD_cons_succ]
      exact ih (by simpa using h) 

theorem map_zip_map_self {α β γ : Type} (l : List α) (h : α → β) (F : α → β → γ) :
    ((l.zip (l.map h)).map (fun p => F p.1 p.2)) = l.map (fun a => F a (h a)) := by
  induction l with
  | nil => rfl
  | cons a rest ih => simp [ih]

/-! ## Lemmas about the query composer -/

theorem parseFieldOperator_in (qc : QueryComposer) (col : String)
    (hsplit : jsSplit (col ++ "__in") qc.options.separator = [col, "in"])
    (hmem : qc.whitelist.contains col = true) :
    qc.parseFieldOperator (col ++ "__in") = .ok (col, "in") := by
  have hm : col ∈ qc.whitelist := strContains_iff_mem.mp hmem
  have hop : "in" ∈ VALID_OPERATORS := by decide
  unfold QueryComposer.parseFieldOperator QueryComposer.validateColumn QueryComposer.validateOperator
  simp [hsplit, hm, hop]
  rfl

theorem parseFieldOperator_in_notMem (qc : QueryComposer) (col : String)
    (hsplit : jsSplit (col ++ "__in") qc.options.separator = [col, "in"])
    (hnot : qc.whitelist.contains col = false)
    (hstrict : qc.options.strict = false) :
    qc.parseFieldOperator (col ++ "__in") = .error (.invalidColumn col) := by
  have hm : col ∉ qc.whitelist := fun hc => by
    rw [strContains_iff_mem.mpr hc] at hnot
    cases hnot
  unfold QueryComposer.parseFieldOperator QueryComposer.validateColumn
  simp [hsplit, hstrict, hm]
  rfl

theorem whereIn_push (qc : QueryComposer) (col : String) (vals : List Val)
    (hsplit : jsSplit (col ++ "__in") qc.options.separator = [col, "in"])
    (hmem : qc.whitelist.contains col = true) :
    qc.whereIn col vals = .ok { qc with conditions := qc.conditions ++
      [⟨col, "in", Val.arr vals, false, none⟩] } := by
  unfold QueryComposer.whereIn QueryComposer.whereFilter
  simp [whereFilterGo, QueryComposer.whereParsePush, parseFieldOperator_in qc col hsplit hmem]

theorem whereIn_dropped (qc : QueryComposer) (col : String) (vals : List Val)
    (hsplit : jsSplit (col ++ "__in") qc.options.separator = [col, "in"])
    (hnot : qc.whitelist.contains col = false)
    (hstrict : qc.options.strict = false) :
    qc.whereIn col vals = .ok qc := by
  unfold QueryComposer.whereIn QueryComposer.whereFilter
  simp [whereFilterGo, QueryComposer.whereParsePush,
    parseFieldOperator_in_notMem qc col hsplit hnot hstrict, hstrict]

theorem mapM_ok_of_forall {α β : Type} (l : List α) (f : α → Except Err β)
    (h : ∀ a ∈ l, ∃ b, f a = .ok b) : ∃ l', l.mapM f = .ok l' := by
  induction l with
  | nil => exact ⟨[], rfl⟩
  | cons a rest ih =>
    obtain ⟨b, hb⟩ := h a (List.mem_cons_self _ _)
    obtain ⟨l', hl'⟩ := ih (fun x hx => h x (List.mem_cons_of_mem _ hx))
    exact ⟨b :: l', by rw [List.mapM_cons, hb, hl']; rfl⟩

theorem OPERATORS_in_ok (col : String) (v : Val) :
    ∃ f, OPERATORS "in" col v = .ok f := by
  unfold OPERATORS
  by_cases h : ((valAsArr v).length == 0) = true
  · exact ⟨("FALSE", []), by simp [h]⟩
  · simp only [Bool.not_eq_true] at h
    exact ⟨(col ++ " IN (" ++ qMarks (valAsArr v).length ++ ")", valAsArr v), by simp [h]⟩

theorem conditionFrag_in_ok (col : String) (vals : List Val) :
    ∃ f, conditionFrag ⟨col, "in", Val.arr vals, false, none⟩ = .ok f := by
  have h := OPERATORS_in_ok col (.arr vals)
  simpa [conditionFrag] using h

theorem toParam_ok_of (qc : QueryComposer)
    (hor : qc.orGroups = []) (hnot : qc.notConditions = [])
    (hconds : ∀ c ∈ qc.conditions, ∃ f, conditionFrag c = .ok f) :
    ∃ q, qc.toParam = .ok q := by
  unfold QueryComposer.toParam QueryComposer.buildFragments
  obtain ⟨fr, hfr⟩ := mapM_ok_of_forall _ _ hconds
  rw [hfr, hor, hnot]
  exact ⟨_, rfl⟩

/-! ## The batch query generators under well-formed key columns -/

theorem exceptBind_ok {α β : Type} (a : α) (f : α → Except Err β) :
    (Except.ok a >>= f) = f a := rfl

/-- The `whereIn`-then-`toParam` pipeline shared by the three direct
generators succeeds and pushes exactly the expected IN condition. -/
theorem simpleGen_ok (schema : List String) (target col : String) (keys : List String)
    (hsplit : jsSplit (col ++ "__in") "__" = [col, "in"]) :
    ∃ q, (mkQueryComposer schema target
        { strict := false, separator := "__", extraColumns := [col] }).whereIn col
        (keys.map Val.str) =
      .ok { mkQueryComposer schema target
              { strict := false, separator := "__", extraColumns := [col] } with
            conditions := [⟨col, "in", Val.arr (keys.map Val.str), false, none⟩] } ∧
      ({ mkQueryComposer schema target
              { strict := false, separator := "__", extraColumns := [col] } with
            conditions := [⟨col, "in", Val.arr (keys.map Val.str), false, none⟩]
          : QueryComposer }).toParam = .ok q := by
  have hmem : (mkQueryComposer schema target
      { strict := false, separator := "__", extraColumns := [col] }).whitelist.contains col = true := by
    rw [strContains_iff_mem]
    simp [mkQueryComposer, buildWhitelist]
  have hw := whereIn_push (mkQueryComposer schema target
    { strict := false, separator := "__", extraColumns := [col] }) col (keys.map Val.str)
    (by simpa [mkQueryComposer] using hsplit) hmem
  obtain ⟨q, hq⟩ := toParam_ok_of ({ mkQueryComposer schema target
      { strict := false, separator := "__", extraColumns := [col] } with
      conditions := [⟨col, "in", Val.arr (keys.map Val.str), false, none⟩] })
    (by simp [mkQueryComposer]) (by simp [mkQueryComposer])
    (by
      intro c hc
      simp [mkQueryComposer] at hc
      subst hc
      exact conditionFrag_in_ok col (keys.map Val.str))
  refine ⟨q, ?_, hq⟩
  simpa [mkQueryComposer] using hw

theorem getBatchLoadConfig_ok (model : ModelDefinition) (relName : String)
    (rel : RelationConfig) (keys : List String)
    (hrel : getRelation model relName = some rel) (hwok : relWhereOk model rel) :
    ∃ cfg, getBatchLoadConfig model relName keys = .ok cfg ∧
      cfg.batchKey = relBatchKey rel ∧ cfg.isSingle = relIsSingle rel := by
  cases rel with
  | belongsTo target fk pk =>
    obtain ⟨q, hw, hq⟩ := simpleGen_ok model.schema target pk keys hwok
    refine ⟨⟨q, pk, true⟩, ?_, rfl, rfl⟩
    simp only [getBatchLoadConfig, batchLoadBelongsTo, hrel]
    rw [hw, exceptBind_ok]
    rw [hq, exceptBind_ok]
    rfl
  | hasOne target fk pk =>
    obtain ⟨q, hw, hq⟩ := simpleGen_ok model.schema target fk keys hwok
    refine ⟨⟨q, fk, true⟩, ?_, rfl, rfl⟩
    simp only [getBatchLoadConfig, batchLoadHasOne, hrel]
    rw [hw, exceptBind_ok]
    rw [hq, exceptBind_ok]
    rfl
  | hasMany target fk pk =>
    obtain ⟨q, hw, hq⟩ := simpleGen_ok model.schema target fk keys hwok
    refine ⟨⟨q, fk, false⟩, ?_, rfl, rfl⟩
    simp only [getBatchLoadConfig, batchLoadHasMany, hrel]
    rw [hw, exceptBind_ok]
    rw [hq, exceptBind_ok]
    rfl
  | hasManyThrough target through fk tfk pk tpk =>
    obtain ⟨hsplit, hnotmem⟩ := hwok
    have hdrop := whereIn_dropped
      ((mkQueryComposer model.schema target
          { strict := false, separator := "__", extraColumns := [fk, tfk] }).join through
        (target ++ "." ++ tpk ++ " = " ++ through ++ "." ++ tfk))
      (through ++ "." ++ fk) (keys.map Val.str)
      (by simpa [mkQueryComposer, QueryComposer.join] using hsplit)
      (by simpa [mkQueryComposer, QueryComposer.join, buildWhitelist] using hnotmem)
      (by simp [mkQueryComposer, QueryComposer.join])
    obtain ⟨q, hq⟩ := toParam_ok_of
      ((mkQueryComposer model.schema target
          { strict := false, separator := "__", extraColumns := [fk, tfk] }).join through
        (target ++ "." ++ tpk ++ " = " ++ through ++ "." ++ tfk))
      (by simp [mkQueryComposer, QueryComposer.join])
      (by simp [mkQueryComposer, QueryComposer.join])
      (by
        intro c hc
        simp [mkQueryComposer, QueryComposer.join] at hc)
    refine ⟨⟨q, fk, false⟩, ?_, rfl, rfl⟩
    simp only [getBatchLoadConfig, batchLoadHasManyThrough, hrel]
    rw [hdrop, exceptBind_ok]
    rw [hq, exceptBind_ok]
    rfl

/-! ## The loader's one-turn behaviour -/

theorem cacheKeyFn_eq (k : String) : cacheKeyFn k = k := by
  simp [cacheKeyFn, valToString]

/-- One execution turn on a fresh loader: the executor receives exactly the
single query built for the deduplicated key set, every requested key resolves
to the executor rows whose batch-key column matches it, and the resolved
groups are memoized per unique key. -/
theorem loadTurn_fresh (ld : RelationLoader) (keys : List String) (cfg : BatchLoadConfig)
    (hcache : ld.cache = []) (hne : keys ≠ [])
    (hcfg : getBatchLoadConfig ld.model ld.relationName (dedupList keys) = .ok cfg) :
    loadTurn ld keys = .ok
      ({ ld with cache := (dedupList keys).zip ((dedupList keys).map (fun k =>
          (ld.executor cfg.query).filter (fun row => Val.keyBeq (rowGet row cfg.batchKey) (Val.str k)))) },
       keys.map (fun k =>
         (ld.executor cfg.query).filter (fun row => Val.keyBeq (rowGet row cfg.batchKey) (Val.str k))),
       [cfg.query]) := by
  have hfilter : (keys.filter (fun k => (lookupStr ld.cache (cacheKeyFn k)).isNone)) = keys := by
    rw [hcache]
    exact List.filter_eq_self.mpr (fun a _ => rfl)
  have hbatch : relationBatchFn ld.model ld.relationName ld.executor (dedupList keys) =
      .ok ((dedupList keys).map (fun key =>
        (ld.executor cfg.query).filter (fun row =>
          Val.keyBeq (rowGet row cfg.batchKey) (Val.str key))), cfg.query) := by
    unfold relationBatchFn
    rw [dedupList_idem]
    simp only [hcfg, exceptBind_ok, groupByKey_getD]
    rfl
  have hne2 : (dedupList keys).isEmpty = false := by
    cases hd : dedupList keys with
    | nil => exact absurd hd (dedupList_ne_nil hne)
    | cons a l => rfl
  unfold loadTurn
  rw [hfilter]
  simp only [hne2, Bool.false_eq_true, if_false, hbatch, exceptBind_ok, hcache,
    List.nil_append, cacheKeyFn_eq]
  have hckfun : cacheKeyFn = fun k : String => k := funext cacheKeyFn_eq
  have hmapck : List.map (fun k : String => k) (dedupList keys) = dedupList keys := by simp
  rw [hckfun, hmapck]
  have hvals : keys.map (fun k =>
      match lookupStr ((dedupList keys).zip ((dedupList keys).map (fun key =>
          (ld.executor cfg.query).filter (fun row =>
            Val.keyBeq (rowGet row cfg.batchKey) (Val.str key))))) k with
      | some v => v
      | none => []) =
      keys.map (fun k =>
        (ld.executor cfg.query).filter (fun row =>
          Val.keyBeq (rowGet row cfg.batchKey) (Val.str k))) := by
    apply List.map_congr_left
    intro k hk
    rw [lookupStr_zip_map _ _ (mem_dedupList.mpr hk)]
  rw [hvals]
  rfl

/-- A turn whose single requested key is already memoized: the cached value is
returned and the executor is not consulted. -/
theorem loadTurn_cached_single (ld : RelationLoader) (k : String) (v : List Row)
    (hcache : ld.cache = [(k, v)]) :
    loadTurn ld [k] = .ok (ld, [v], []) := by
  unfold loadTurn
  simp [hcache, cacheKeyFn_eq, lookupStr_cons, dedupList]

theorem zip_values_map (records : List Row) (g : Row → String) (f : String → List Row)
    (relName : String) (rel : RelationConfig) :
    ((records.zip ((records.map g).map f)).map
        (fun rv => setField rv.1 relName (assembleRelated rel rv.2))) =
      records.map (fun r => setField r relName (assembleRelated rel (f (g r)))) := by
  induction records with
  | nil => rfl
  | cons a rest ih =>
    simp only [List.map_map] at ih ⊢
    simp [ih]

/-- Full characterization of `loadRelation`: it succeeds, and every record is
extended — in input order — with the value assembled from the executor rows
whose batch-key column matches the record's own key. -/
theorem loadRelation_spec (records : List Row) (model : ModelDefinition) (relName : String)
    (rel : RelationConfig) (executor : ParamQuery → List Row)
    (hrel : getRelation model relName = some rel) (hwok : relWhereOk model rel) :
    ∃ cfg, getBatchLoadConfig model relName
        (dedupList (records.map (fun r => valToString (rowGet r (keyFieldOf model rel))))) = .ok cfg ∧
      cfg.batchKey = relBatchKey rel ∧ cfg.isSingle = relIsSingle rel ∧
      loadRelation records model relName executor = .ok (records.map (fun r =>
        setField r relName (assembleRelated rel ((executor cfg.query).filter (fun row =>
          Val.keyBeq (rowGet row cfg.batchKey)
            (Val.str (valToString (rowGet r (keyFieldOf model rel))))))))) := by
  obtain ⟨cfg, hcfg, hbk, hsingle⟩ := getBatchLoadConfig_ok model relName rel
    (dedupList (records.map (fun r => valToString (rowGet r (keyFieldOf model rel))))) hrel hwok
  refine ⟨cfg, hcfg, hbk, hsingle, ?_⟩
  have hld : createRelationLoader model relName executor =
      .ok ⟨model, relName, executor, []⟩ := by
    unfold createRelationLoader
    rw [hrel]
  cases hrec : records with
  | nil =>
    simp only [loadRelation, hrel, hld, exceptBind_ok]
    simp [loadTurn, dedupList]
  | cons r0 rest =>
    rw [← hrec]
    have hne : (records.map (fun r => valToString (rowGet r (keyFieldOf model rel)))) ≠ [] := by
      rw [hrec]
      simp
    have hturn := loadTurn_fresh ⟨model, relName, executor, []⟩
      (records.map (fun r => valToString (rowGet r (keyFieldOf model rel)))) cfg rfl hne hcfg
    simp only [loadRelation, hrel, hld, exceptBind_ok, hturn]
    rw [zip_values_map records (fun r => valToString (rowGet r (keyFieldOf model rel)))
      (fun k => (executor cfg.query).filter (fun row =>
        Val.keyBeq (rowGet row cfg.batchKey) (Val.str k))) relName rel]
    rfl

/-! ## Registry and include lemmas -/

theorem any_of_lookupStr {α : Type} {rs : List (String × α)} {k : String} {v : α}
    (h : lookupStr rs k = some v) : (rs.any fun p => p.1 == k) = true := by
  induction rs with
  | nil => cases h
  | cons p rest ih =>
    rw [lookupStr_cons] at h
    by_cases hp : (p.1 == k) = true
    · simp [List.any_cons, hp]
    · simp only [Bool.not_eq_true] at hp
      rw [if_neg (by simp [hp])] at h
      simp only [List.any_cons, hp, Bool.false_eq_true, false_or]
      exact ih h

theorem lookupStr_isSome_of_any {α : Type} {rs : List (String × α)} {k : String}
    (h : (rs.any fun p => p.1 == k) = true) : ∃ v, lookupStr rs k = some v := by
  induction rs with
  | nil => cases h
  | cons p rest ih =>
    rw [lookupStr_cons]
    by_cases hp : (p.1 == k) = true
    · exact ⟨p.2, by simp [hp]⟩
    · simp only [Bool.not_eq_true] at hp
      rw [if_neg (by simp [hp])]
      simp only [List.any_cons, hp, Bool.false_eq_true, false_or] at h
      exact ih h

theorem hasRelation_of_getRelation {model : ModelDefinition} {relName : String}
    {cfg : RelationConfig} (h : getRelation model relName = some cfg) :
    hasRelation model relName = true := by
  cases hrels : model.relations with
  | none => simp [getRelation, hrels] at h
  | some rs =>
    simp only [getRelation, hrels] at h
    simp only [hasRelation, hrels]
    exact any_of_lookupStr h

theorem getRelation_of_hasRelation {model : ModelDefinition} {relName : String}
    (h : hasRelation model relName = true) :
    ∃ cfg, getRelation model relName = some cfg := by
  cases hrels : model.relations with
  | none => simp [hasRelation, hrels] at h
  | some rs =>
    simp only [hasRelation, hrels] at h
    simp only [getRelation, hrels]
    exact lookupStr_isSome_of_any h

theorem lookupStr_jsMapSet {α : Type} (m : List (String × α)) (k : String) (v : α) :
    lookupStr (jsMapSet m k v) k = some v := by
  induction m with
  | nil => simp [jsMapSet, lookupStr_cons]
  | cons p rest ih =>
    by_cases hp : (p.1 == k) = true
    · simp [jsMapSet, hp, lookupStr_cons]
    · simp only [Bool.not_eq_true] at hp
      simp [jsMapSet, hp, lookupStr_cons, ih]

/-! ## Claim theorems -/

/-- C1: for every batch of `load` calls coalesced into one execution turn on
a freshly created relation loader, the external executor is invoked exactly
once (the turn's query trace is a single query), that query is the one built
by the batch query generator for the deduplicated set of buffered keys, and
the deduplicated key set indeed contains no duplicates — regardless of how
many keys or duplicates are buffered. -/
theorem batch_executes_executor_once (model : ModelDefinition) (relName : String)
    (rel : RelationConfig) (executor : ParamQuery → List Row) (keys : List String)
    (ld : RelationLoader)
    (hrel : getRelation model relName = some rel) (hwok : relWhereOk model rel)
    (hld : createRelationLoader model relName executor = .ok ld) (hne : keys ≠ []) :
    ∃ cfg ld' values,
      getBatchLoadConfig model relName (dedupList keys) = .ok cfg ∧
      loadTurn ld keys = .ok (ld', values, [cfg.query]) ∧
      (dedupList keys).Nodup := by
  have hld2 : ld = ⟨model, relName, executor, []⟩ := by
    unfold createRelationLoader at hld
    rw [hrel] at hld
    exact (Except.ok.inj hld).symm
  subst hld2
  obtain ⟨cfg, hcfg, _, _⟩ := getBatchLoadConfig_ok model relName rel (dedupList keys) hrel hwok
  exact ⟨cfg, _, _, hcfg,
    loadTurn_fresh ⟨model, relName, executor, []⟩ keys cfg rfl hne hcfg,
    dedupList_nodup keys⟩

/-- C1 witness: the `League.posts` scenario with keys `[L1, L2, L1]`. -/
theorem batch_executes_executor_once_witness :
    getRelation LeagueModel "posts" = some (RelationConfig.hasMany "posts" "league_id" "id") ∧
    relWhereOk LeagueModel (RelationConfig.hasMany "posts" "league_id" "id") ∧
    createRelationLoader LeagueModel "posts" postsExecutor =
      .ok ⟨LeagueModel, "posts", postsExecutor, []⟩ ∧
    (∃ cfg ld' values,
      getBatchLoadConfig LeagueModel "posts" (dedupList ["L1", "L2", "L1"]) = .ok cfg ∧
      loadTurn ⟨LeagueModel, "posts", postsExecutor, []⟩ ["L1", "L2", "L1"] =
        .ok (ld', values, [cfg.query]) ∧
      (dedupList ["L1", "L2", "L1"]).Nodup) :=
  ⟨rfl, by unfold relWhereOk; decide, rfl,
    batch_executes_executor_once LeagueModel "posts" _ postsExecutor ["L1", "L2", "L1"] _
      rfl (by unfold relWhereOk; decide) rfl (by decide)⟩

/-- C2: `loadMany` maps `load` over its keys inside one execution turn, so
one turn on a fresh loader resolves its i-th request to the group of
executor rows whose batch-key column matches the i-th requested key — the
assignment is by key matching, not by result position, hence independent of
the executor's row order. -/
theorem loadMany_request_order (model : ModelDefinition) (relName : String)
    (rel : RelationConfig) (executor : ParamQuery → List Row) (keys : List String)
    (ld : RelationLoader)
    (hrel : getRelation model relName = some rel) (hwok : relWhereOk model rel)
    (hld : createRelationLoader model relName executor = .ok ld) (hne : keys ≠ []) :
    ∃ cfg ld' values,
      getBatchLoadConfig model relName (dedupList keys) = .ok cfg ∧
      loadTurn ld keys = .ok (ld', values, [cfg.query]) ∧
      values.length = keys.length ∧
      values = keys.map (fun k => (executor cfg.query).filter
        (fun row => Val.keyBeq (rowGet row cfg.batchKey) (Val.str k))) := by
  have hld2 : ld = ⟨model, relName, executor, []⟩ := by
    unfold createRelationLoader at hld
    rw [hrel] at hld
    exact (Except.ok.inj hld).symm
  subst hld2
  obtain ⟨cfg, hcfg, _, _⟩ := getBatchLoadConfig_ok model relName rel (dedupList keys) hrel hwok
  refine ⟨cfg, _, _, hcfg,
    loadTurn_fresh ⟨model, relName, executor, []⟩ keys cfg rfl hne hcfg, by simp, rfl⟩

/-- C2 witness: the `Post.author` scenario with keys `[u9, u9, u10]` and an
executor answering in the opposite order. -/
theorem loadMany_request_order_witness :
    getRelation PostModel "author" = some (RelationConfig.belongsTo "users" "author_id" "id") ∧
    relWhereOk PostModel (RelationConfig.belongsTo "users" "author_id" "id") ∧
    createRelationLoader PostModel "author" usersExecutor =
      .ok ⟨PostModel, "author", usersExecutor, []⟩ ∧
    (∃ cfg ld' values,
      getBatchLoadConfig PostModel "author" (dedupList ["u9", "u9", "u10"]) = .ok cfg ∧
      loadTurn ⟨PostModel, "author", usersExecutor, []⟩ ["u9", "u9", "u10"] =
        .ok (ld', values, [cfg.query]) ∧
      values.length = (["u9", "u9", "u10"] : List String).length ∧
      values = ["u9", "u9", "u10"].map (fun k => (usersExecutor cfg.query).filter
        (fun row => Val.keyBeq (rowGet row cfg.batchKey) (Val.str k)))) :=
  ⟨rfl, by unfold relWhereOk; decide, rfl,
    loadMany_request_order PostModel "author" _ usersExecutor ["u9", "u9", "u10"] _
      rfl (by unfold relWhereOk; decide) rfl (by decide)⟩

/-- C4: a fresh loader starts with an empty cache; loading a key once
executes the batch (one query), memoizes the resolved value under the key's
canonical string form, and a second `load` of the same key in a later turn
returns the same resolved value with no executor invocation (zero queries in
the second turn — exactly one in total). -/
theorem load_cached_second_call (model : ModelDefinition) (relName : String)
    (rel : RelationConfig) (executor : ParamQuery → List Row) (k : String)
    (ld : RelationLoader)
    (hrel : getRelation model relName = some rel) (hwok : relWhereOk model rel)
    (hld : createRelationLoader model relName executor = .ok ld) :
    ld.cache = [] ∧
    ∃ ld1 v q,
      loadTurn ld [k] = .ok (ld1, [v], [q]) ∧
      ld1.cache = [(cacheKeyFn k, v)] ∧
      loadTurn ld1 [k] = .ok (ld1, [v], []) := by
  have hld2 : ld = ⟨model, relName, executor, []⟩ := by
    unfold createRelationLoader at hld
    rw [hrel] at hld
    exact (Except.ok.inj hld).symm
  subst hld2
  obtain ⟨cfg, hcfg, _, _⟩ := getBatchLoadConfig_ok model relName rel (dedupList [k]) hrel hwok
  have hturn := loadTurn_fresh ⟨model, relName, executor, []⟩ [k] cfg rfl (by simp) hcfg
  have hded : dedupList [k] = [k] := by simp [dedupList]
  rw [hded] at hturn
  simp only [List.map_cons, List.map_nil, List.zip_cons_cons, List.zip_nil_right] at hturn
  refine ⟨rfl, _, _, cfg.query, hturn, ?_, ?_⟩
  · simp [cacheKeyFn_eq]
  · exact loadTurn_cached_single _ k _ rfl

/-- C4 witness: loading `L1` twice on a fresh `League.posts` loader. -/
theorem load_cached_second_call_witness :
    getRelation LeagueModel "posts" = some (RelationConfig.hasMany "posts" "league_id" "id") ∧
    createRelationLoader LeagueModel "posts" postsExecutor =
      .ok ⟨LeagueModel, "posts", postsExecutor, []⟩ ∧
    ((⟨LeagueModel, "posts", postsExecutor, []⟩ : RelationLoader).cache = [] ∧
      ∃ ld1 v q,
        loadTurn ⟨LeagueModel, "posts", postsExecutor, []⟩ ["L1"] = .ok (ld1, [v], [q]) ∧
        ld1.cache = [(cacheKeyFn "L1", v)] ∧
        loadTurn ld1 ["L1"] = .ok (ld1, [v], [])) :=
  ⟨rfl, rfl,
    load_cached_second_call LeagueModel "posts" _ postsExecutor "L1" _
      rfl (by unfold relWhereOk; decide) rfl⟩

/-- C3: `loadRelation` resolves successfully, and every record whose key has
zero matching rows in the executor result receives `null` for a
single-cardinality relation (`belongsTo`/`hasOne`) and the empty list for
`hasMany`/`hasManyThrough` — never an error. -/
theorem missing_key_resolves_empty (model : ModelDefinition) (relName : String)
    (rel : RelationConfig) (executor : ParamQuery → List Row) (records : List Row)
    (hrel : getRelation model relName = some rel) (hwok : relWhereOk model rel) :
    ∃ cfg out,
      getBatchLoadConfig model relName
        (dedupList (records.map (fun r => valToString (rowGet r (keyFieldOf model rel))))) = .ok cfg ∧
      loadRelation records model relName executor = .ok out ∧
      out.length = records.length ∧
      ∀ i, i < records.length →
        ((executor cfg.query).filter (fun row => Val.keyBeq (rowGet row cfg.batchKey)
            (Val.str (valToString (rowGet (records.getD i []) (keyFieldOf model rel))))) = [] →
          rowGet (out.getD i []) relName =
            (if relIsSingle rel then Val.null else Val.arr [])) := by
  obtain ⟨cfg, hcfg, hbk, hsingle, hout⟩ :=
    loadRelation_spec records model relName rel executor hrel hwok
  refine ⟨cfg, _, hcfg, hout, by simp, ?_⟩
  intro i hi hempty
  rw [getD_map_lt records _ hi [] []]
  rw [rowGet_setField_self, hempty]
  cases rel <;> simp [assembleRelated, relIsSingle]

/-- C3 witness: a `belongsTo` record whose key matches no executor row
resolves to `null`. -/
theorem missing_key_resolves_empty_witness :
    getRelation PostModel "author" = some (RelationConfig.belongsTo "users" "author_id" "id") ∧
    (∃ cfg out,
      getBatchLoadConfig PostModel "author"
        (dedupList ([[("author_id", Val.str "zz")]].map (fun r => valToString (rowGet r
          (keyFieldOf PostModel (RelationConfig.belongsTo "users" "author_id" "id")))))) = .ok cfg ∧
      loadRelation [[("author_id", Val.str "zz")]] PostModel "author" usersExecutor = .ok out ∧
      out.length = 1 ∧
      ∀ i, i < ([[("author_id", Val.str "zz")]] : List Row).length →
        ((usersExecutor cfg.query).filter (fun row => Val.keyBeq (rowGet row cfg.batchKey)
            (Val.str (valToString (rowGet (([[("author_id", Val.str "zz")]] : List Row).getD i [])
              (keyFieldOf PostModel (RelationConfig.belongsTo "users" "author_id" "id")))))) = [] →
          rowGet (out.getD i []) "author" =
            (if relIsSingle (RelationConfig.belongsTo "users" "author_id" "id")
             then Val.null else Val.arr []))) :=
  ⟨rfl, missing_key_resolves_empty PostModel "author" _ usersExecutor
    [[("author_id", Val.str "zz")]] rfl (by unfold relWhereOk; decide)⟩

/-- C9: (a) `groupByKey` places each row in the bucket of its key-column
value, preserving input order within buckets; (b) buckets are created on
first sight, in first-occurrence order of the key values; (c) for
single-cardinality relations, the assignment step takes the first element of
the key's bucket in executor result order (or `null` when the bucket is
empty), even when several rows share the key, and `loadRelation` still
succeeds. -/
theorem grouping_and_first_row_policy (model : ModelDefinition) (relName : String)
    (rel : RelationConfig) (executor : ParamQuery → List Row) (records : List Row)
    (hrel : getRelation model relName = some rel) (hwok : relWhereOk model rel) :
    (∀ (rows : List Row) (key : String) (v : Val),
      mapGetD (groupByKey rows key) v =
        rows.filter (fun item => Val.keyBeq (rowGet item key) v)) ∧
    (∀ (rows : List Row) (key : String),
      (groupByKey rows key).map Prod.fst =
        firstSightKeys (rows.map (fun item => rowGet item key))) ∧
    (relIsSingle rel = true →
      ∃ cfg out,
        getBatchLoadConfig model relName
          (dedupList (records.map (fun r => valToString (rowGet r (keyFieldOf model rel))))) = .ok cfg ∧
        loadRelation records model relName executor = .ok out ∧
        out.length = records.length ∧
        ∀ i, i < records.length →
          rowGet (out.getD i []) relName =
            (match ((executor cfg.query).filter (fun row => Val.keyBeq (rowGet row cfg.batchKey)
                (Val.str (valToString (rowGet (records.getD i []) (keyFieldOf model rel)))))).head? with
             | some row => Val.obj row
             | none => Val.null)) := by
  refine ⟨groupByKey_getD, groupByKey_keys, ?_⟩
  intro hsing
  obtain ⟨cfg, hcfg, hbk, hsingle, hout⟩ :=
    loadRelation_spec records model relName rel executor hrel hwok
  refine ⟨cfg, _, hcfg, hout, by simp, ?_⟩
  intro i hi
  rw [getD_map_lt records _ hi [] []]
  rw [rowGet_setField_self]
  cases rel with
  | belongsTo target fk pk => rfl
  | hasOne target fk pk => rfl
  | hasMany target fk pk => cases hsing
  | hasManyThrough target through fk tfk pk tpk => cases hsing

/-- C9 witness: a `hasOne` relation whose executor returns two rows for the
same key resolves to the first row in result order, without an error. -/
theorem grouping_and_first_row_policy_witness :
    getRelation UserModel "profile" = some (RelationConfig.hasOne "profiles" "user_id" "id") ∧
    relIsSingle (RelationConfig.hasOne "profiles" "user_id" "id") = true ∧
    ((∀ (rows : List Row) (key : String) (v : Val),
      mapGetD (groupByKey rows key) v =
        rows.filter (fun item => Val.keyBeq (rowGet item key) v)) ∧
    (∀ (rows : List Row) (key : String),
      (groupByKey rows key).map Prod.fst =
        firstSightKeys (rows.map (fun item => rowGet item key))) ∧
    (relIsSingle (RelationConfig.hasOne "profiles" "user_id" "id") = true →
      ∃ cfg out,
        getBatchLoadConfig UserModel "profile"
          (dedupList ([[("id", Val.str "u1")]].map (fun r => valToString (rowGet r
            (keyFieldOf UserModel (RelationConfig.hasOne "profiles" "user_id" "id")))))) = .ok cfg ∧
        loadRelation [[("id", Val.str "u1")]] UserModel "profile" profilesExecutor = .ok out ∧
        out.length = 1 ∧
        ∀ i, i < ([[("id", Val.str "u1")]] : List Row).length →
          rowGet (out.getD i []) "profile" =
            (match ((profilesExecutor cfg.query).filter (fun row =>
                Val.keyBeq (rowGet row cfg.batchKey)
                  (Val.str (valToString (rowGet (([[("id", Val.str "u1")]] : List Row).getD i [])
                    (keyFieldOf UserModel (RelationConfig.hasOne "profiles" "user_id" "id"))))))).head? with
             | some row => Val.obj row
             | none => Val.null))) :=
  ⟨rfl, rfl,
    grouping_and_first_row_policy UserModel "profile" _ profilesExecutor
      [[("id", Val.str "u1")]] rfl (by unfold relWhereOk; decide)⟩

/-- C10: `loadRelation` resolves to a list of the same length and order; the
i-th output record agrees with the i-th input record on every field other
than the relation name, and is exactly the input record updated at the
relation name (the embedding is pure, so the inputs themselves are
unchanged values). -/
theorem loadRelation_frame (model : ModelDefinition) (relName : String)
    (rel : RelationConfig) (executor : ParamQuery → List Row) (records : List Row)
    (hrel : getRelation model relName = some rel) (hwok : relWhereOk model rel) :
    ∃ out,
      loadRelation records model relName executor = .ok out ∧
      out.length = records.length ∧
      (∀ i, i < records.length → ∀ f, f ≠ relName →
        rowGet (out.getD i []) f = rowGet (records.getD i []) f) ∧
      (∀ i, i < records.length →
        ∃ v, out.getD i [] = setField (records.getD i []) relName v) := by
  obtain ⟨cfg, hcfg, hbk, hsingle, hout⟩ :=
    loadRelation_spec records model relName rel executor hrel hwok
  refine ⟨_, hout, by simp, ?_, ?_⟩
  · intro i hi f hf
    rw [getD_map_lt records _ hi [] []]
    exact rowGet_setField_ne _ _ hf
  · intro i hi
    rw [getD_map_lt records _ hi [] []]
    exact ⟨_, rfl⟩

/-- C10 witness: the `League.posts` scenario over two records. -/
theorem loadRelation_frame_witness :
    getRelation LeagueModel "posts" = some (RelationConfig.hasMany "posts" "league_id" "id") ∧
    (∃ out,
      loadRelation [[("id", Val.str "L1"), ("name", Val.str "A")], [("id", Val.str "L2")]]
        LeagueModel "posts" postsExecutor = .ok out ∧
      out.length = 2 ∧
      (∀ i, i < ([[("id", Val.str "L1"), ("name", Val.str "A")], [("id", Val.str "L2")]] : List Row).length →
        ∀ f, f ≠ "posts" →
          rowGet (out.getD i []) f =
            rowGet (([[("id", Val.str "L1"), ("name", Val.str "A")], [("id", Val.str "L2")]] : List Row).getD i []) f) ∧
      (∀ i, i < ([[("id", Val.str "L1"), ("name", Val.str "A")], [("id", Val.str "L2")]] : List Row).length →
        ∃ v, out.getD i [] =
          setField (([[("id", Val.str "L1"), ("name", Val.str "A")], [("id", Val.str "L2")]] : List Row).getD i [])
            "posts" v)) :=
  ⟨rfl, loadRelation_frame LeagueModel "posts" _ postsExecutor
    [[("id", Val.str "L1"), ("name", Val.str "A")], [("id", Val.str "L2")]]
    rfl (by unfold relWhereOk; decide)⟩

/-- C5: `include` on a relation name absent from the model's relation map
fails immediately with `RelationNotFoundError` (no query is built or
executed — the call returns before anything else happens); on a present
relation name it returns the same composer with one tracked include
appended, storing the filter callback unevaluated. -/
theorem include_fail_fast (mqc : ModelQueryComposer) (relName : String)
    (cb : Option (QueryComposer → QueryComposer)) :
    (hasRelation mqc.model relName = false →
      includeRel mqc relName cb = .error (.relationNotFound relName mqc.model.name)) ∧
    (∀ cfg, getRelation mqc.model relName = some cfg →
      includeRel mqc relName cb =
        .ok { mqc with includes := mqc.includes ++ [.mk relName cfg cb none] }) := by
  constructor
  · intro h
    unfold includeRel
    rw [h]
    rfl
  · intro cfg hcfg
    have hhas : hasRelation mqc.model relName = true := hasRelation_of_getRelation hcfg
    unfold includeRel
    rw [hhas, hcfg]
    rfl

/-- C5 witness: `League` rejects an unknown relation and tracks a known one. -/
theorem include_fail_fast_witness :
    hasRelation LeagueModel "nonexistent" = false ∧
    getRelation LeagueModel "posts" = some (RelationConfig.hasMany "posts" "league_id" "id") ∧
    includeRel (createModelQuery LeagueModel) "nonexistent" none =
      .error (.relationNotFound "nonexistent" "League") ∧
    includeRel (createModelQuery LeagueModel) "posts" none =
      .ok { createModelQuery LeagueModel with includes :=
        (createModelQuery LeagueModel).includes ++
          [.mk "posts" (RelationConfig.hasMany "posts" "league_id" "id") none none] } :=
  ⟨rfl, rfl,
    (include_fail_fast (createModelQuery LeagueModel) "nonexistent" none).1 rfl,
    (include_fail_fast (createModelQuery LeagueModel) "posts" none).2 _ rfl⟩

/-- C7 (code bug): the sources never assign `TrackedInclude.nested` — every
include appended by `include` carries `nested = none`, so a filter callback
can never contribute nested entries (it receives a plain `QueryComposer`,
which has no `include` operation at all). -/
theorem nested_includes_never_recorded (mqc mqc2 : ModelQueryComposer) (relName : String)
    (cb : Option (QueryComposer → QueryComposer))
    (hprev : ∀ t ∈ mqc.includes, t.nested = none)
    (hok : includeRel mqc relName cb = .ok mqc2) :
    ∀ t ∈ mqc2.includes, t.nested = none := by
  unfold includeRel at hok
  by_cases hhas : hasRelation mqc.model relName = true
  · rw [hhas] at hok
    simp only [Bool.not_true, Bool.false_eq_true, if_false] at hok
    cases hcfg : getRelation mqc.model relName with
    | none => rw [hcfg] at hok; cases hok
    | some cfg =>
      rw [hcfg] at hok
      have h2 : mqc2 = { mqc with includes := mqc.includes ++ [.mk relName cfg cb none] } :=
        (Except.ok.inj hok).symm
      subst h2
      intro t ht
      simp only [List.mem_append, List.mem_singleton] at ht
      rcases ht with ht | ht
      · exact hprev t ht
      · rw [ht]
        rfl
  · simp only [Bool.not_eq_true] at hhas
    rw [hhas] at hok
    cases hok
/-- C7 witness: a filtered include on `League.posts` leaves `nested` unset
for every tracked entry. -/
theorem nested_includes_never_recorded_witness :
    (∀ t ∈ (createModelQuery LeagueModel).includes, t.nested = none) ∧
    (∃ mqc2, includeRel (createModelQuery LeagueModel) "posts"
        (some (fun qc => qc)) = .ok mqc2 ∧
      ∀ t ∈ mqc2.includes, t.nested = none) :=
  ⟨fun t ht => by simp [createModelQuery] at ht,
   ⟨_, rfl, nested_includes_never_recorded (createModelQuery LeagueModel) _ "posts"
      (some (fun qc => qc)) (fun t ht => by simp [createModelQuery] at ht) rfl⟩⟩

/-- C8: `defineModel` stores the definition under `config.name` so that
`getModel` returns exactly the stored value, defaults the primary key to
`id` when the config omits it, and re-registering the same name overwrites
the previous entry (the later definition wins). -/
theorem defineModel_registry (registry : ModelRegistry) (config : ModelConfig) :
    getModel (defineModel registry config).1 config.name = some (defineModel registry config).2 ∧
    (config.primaryKey = none → (defineModel registry config).2.primaryKey = some "id") ∧
    (∀ config2 : ModelConfig, config2.name = config.name →
      getModel (defineModel (defineModel registry config).1 config2).1 config.name =
        some (defineModel (defineModel registry config).1 config2).2) := by
  refine ⟨?_, ?_, ?_⟩
  · unfold defineModel getModel
    exact lookupStr_jsMapSet registry config.name _
  · intro h
    unfold defineModel
    rw [h]
    rfl
  · intro config2 hname
    unfold defineModel getModel
    rw [← hname]
    exact lookupStr_jsMapSet _ config2.name _
/-- C8 witness: registering, defaulting and overwriting with concrete
configs. -/
theorem defineModel_registry_witness :
    cfgM1.primaryKey = none ∧
    cfgM2.name = cfgM1.name ∧
    (getModel (defineModel [] cfgM1).1 cfgM1.name = some (defineModel [] cfgM1).2 ∧
      (defineModel [] cfgM1).2.primaryKey = some "id" ∧
      getModel (defineModel (defineModel [] cfgM1).1 cfgM2).1 cfgM1.name =
        some (defineModel (defineModel [] cfgM1).1 cfgM2).2) := by
  have h := defineModel_registry [] cfgM1
  exact ⟨rfl, rfl, h.1, h.2.1 rfl, h.2.2 cfgM2 rfl⟩

/-- C6 (code bug): the `hasManyThrough` batch config does target the
relation's target table, join the junction on
`target.throughPrimaryKey = through.throughForeignKey`, and report batch key
`foreignKey` with multiple cardinality — but the `whereIn` filter on the
junction's qualified foreign-key column is silently dropped: the qualified
column name fails the whitelist check, `parseFieldOperator` throws even with
validation relaxed, and the non-strict `where` swallows the error, leaving a
query with no WHERE clause and no parameters at all. -/
theorem through_filter_silently_dropped :
    batchLoadHasManyThrough LeagueModel "teams" ["L1"] = .ok
      { query := { text := "SELECT id, name, league_id, team_id, id, created_at, updated_at, deleted_at FROM teams INNER JOIN league_teams ON (teams.id = league_teams.team_id)",
                   values := [] },
        batchKey := "league_id", isSingle := false } := by
  rfl
